import Mathlib

set_option maxRecDepth 100000

/-!
Verification of the pocketfft 1-D transform engine (src/pocketfft.cc).

This file gives a shallow embedding of the integer and transform kernels of
pocketfft into Lean and proves the frozen claims about them.  Conventions:

* size_t values become Nat; no overflow modelling is needed because all the
  claims quantify over mathematical sizes and the source never relies on
  wraparound.
* double values become Rat.  Floating-point literals of the source (the
  hard-coded butterfly constants) are embedded as the corresponding exact
  decimal rationals; no claim below depends on rounding of these constants.
* The calls sqrt(n+0.01) and sqrt((double)len) on integer inputs are embedded
  as Nat.sqrt, the exact integer square root they are designed to compute.
* buffers (T pointers) become total functions from Nat; a C for loop becomes
  a fold over the corresponding index list (iterRange below).
* while loops whose bound is data dependent are given an explicit fuel
  argument (structural recursion); every call site passes fuel that provably
  exceeds the iteration count, and the characterization lemmas carry the
  corresponding fuel hypotheses.
-/

/-- Complex sample: a pair (re, im), the struct cmplx of the source. -/
abbrev CQ : Type := ℚ × ℚ

/-- Buffer of complex samples, an unbounded view of a cmplx pointer. -/
abbrev BufC : Type := ℕ → CQ

/-- Buffer of real samples, an unbounded view of a T pointer. -/
abbrev BufR : Type := ℕ → ℚ

/-- Pointwise write: the store b[i] = v. -/
def upd {α : Type} (b : ℕ → α) (i : ℕ) (v : α) : ℕ → α :=
  fun j => if j = i then v else b j

/-- Fold over the index list of the loop for (x = s; count times; x += step). -/
def iterRange {σ : Type} (s len step : ℕ) (f : ℕ → σ → σ) (x : σ) : σ :=
  (List.range' s len step).foldl (fun a i => f i a) x

/-- Complex addition (operator + of cmplx). -/
def cadd (a b : CQ) : CQ := (a.1 + b.1, a.2 + b.2)

/-- Complex subtraction (operator - of cmplx). -/
def csub (a b : CQ) : CQ := (a.1 - b.1, a.2 - b.2)

/-- Complex times real scalar (operator * with a T2 scalar). -/
def cscale (a : CQ) (s : ℚ) : CQ := (a.1 * s, a.2 * s)

/-- Complex multiplication (operator * of cmplx with cmplx). -/
def cmul (a b : CQ) : CQ := (a.1 * b.1 - a.2 * b.2, a.1 * b.2 + a.2 * b.1)

/-- Member special_mul of cmplx: multiply by w (backward) or by conj w
(forward). -/
def special_mul (bwd : Bool) (a w : CQ) : CQ :=
  if bwd then (a.1 * w.1 - a.2 * w.2, a.1 * w.2 + a.2 * w.1)
  else (a.1 * w.1 + a.2 * w.2, a.2 * w.1 - a.1 * w.2)

/-- Helper ROT90: multiply by i in place. -/
def rot90 (a : CQ) : CQ := (-a.2, a.1)

/-- Helper ROTM90: multiply by -i in place. -/
def rotm90 (a : CQ) : CQ := (a.2, -a.1)

/-- Helper conj of cmplx. -/
def conjC (a : CQ) : CQ := (a.1, -a.2)

/-- Helper PMC(a,b,c,d): a = c+d, b = c-d, returned as the pair (a, b). -/
def pmc (c d : CQ) : CQ × CQ := (cadd c d, csub c d)

/-- Index wrap used by passg and radbg: iwal += l; if (iwal > ip) iwal -= ip.
This is the wrap applied to the already incremented index. -/
def wrapGt (ip i : ℕ) : ℕ := if ip < i then i - ip else i

/-- Index wrap with the test >= instead of >, as used by radfg and as the
spec proposes for passg and radbg (refinement variant). -/
def wrapGe (ip i : ℕ) : ℕ := if ip ≤ i then i - ip else i

/-!
Size helpers (largest_prime_factor, cost_guess, good_size).
-/

/-- Integer square root by downward search, kernel computable.  This embeds
the calls size_t(sqrt(n + 0.01)) and size_t(sqrt((double)n)) of the source,
which on integer input compute exactly the integer square root. -/
def isqrtDown (n : ℕ) : ℕ → ℕ
  | 0 => 0
  | k + 1 => if (k + 1) * (k + 1) ≤ n then k + 1 else isqrtDown n k

/-- Integer square root (see isqrtDown). -/
def isqrt (n : ℕ) : ℕ := isqrtDown n n

/-- Loop while ((n & 1) == 0) { res = 2; n >>= 1; } of largest_prime_factor.
Returns (res, n). -/
def lpf_even : ℕ → ℕ → ℕ → ℕ × ℕ
  | 0, n, res => (res, n)
  | fuel + 1, n, res => if n % 2 = 0 then lpf_even fuel (n / 2) 2 else (res, n)

/-- Odd trial-division loop of largest_prime_factor: for (x = 3; x <= limit;
x += 2) while ((n/x)*x == n) { res = x; n /= x; limit = sqrt(n+0.01); }.
Returns (res, n). -/
def lpf_odd : ℕ → ℕ → ℕ → ℕ → ℕ → ℕ × ℕ
  | 0, n, _, _, res => (res, n)
  | fuel + 1, n, x, limit, res =>
    if x ≤ limit then
      if (n / x) * x = n then lpf_odd fuel (n / x) x (isqrt (n / x)) x
      else lpf_odd fuel n (x + 2) limit res
    else (res, n)

/-- Function largest_prime_factor of the source. -/
def largest_prime_factor (n : ℕ) : ℕ :=
  let p := lpf_even n n 1
  let q := lpf_odd p.2 p.2 3 (isqrt p.2) p.1
  if 1 < q.2 then q.2 else q.1

/-- Loop while ((n & 1) == 0) { result += 2; n >>= 1; } of cost_guess.  The
double accumulator result of the source only ever receives increments that
are integer multiples of one tenth (2, x, or 1.1 * x); in exact arithmetic it
is therefore represented here as a natural count of tenths (2 becomes 20,
x becomes 10 * x, 1.1 * x becomes 11 * x), scaled back by 1/10 at the end in
cost_guess.  Returns (result_tenths, n). -/
def cg_even : ℕ → ℕ → ℕ → ℕ × ℕ
  | 0, n, r => (r, n)
  | fuel + 1, n, r => if n % 2 = 0 then cg_even fuel (n / 2) (r + 20) else (r, n)

/-- Odd trial-division loop of cost_guess, accumulating the per-factor cost
with the lfp = 1.1 penalty on factors above 5, in tenths (see cg_even).
Returns (result_tenths, n). -/
def cg_odd : ℕ → ℕ → ℕ → ℕ → ℕ → ℕ × ℕ
  | 0, n, _, _, r => (r, n)
  | fuel + 1, n, x, limit, r =>
    if x ≤ limit then
      if (n / x) * x = n then
        cg_odd fuel (n / x) x (isqrt (n / x))
          (r + (if x ≤ 5 then 10 * x else 11 * x))
      else cg_odd fuel n (x + 2) limit r
    else (r, n)

/-- Total cost of cost_guess in tenths, before the final multiplication by
the original n (see cg_even for the tenths convention). -/
def cgTenths (n : ℕ) : ℕ :=
  let p := cg_even n n 0
  let q := cg_odd p.2 p.2 3 (isqrt p.2) p.1
  if 1 < q.2 then q.1 + (if q.2 ≤ 5 then 10 * q.2 else 11 * q.2) else q.1

/-- Function cost_guess of the source: result * ni in exact arithmetic,
where result is cgTenths n / 10. -/
def cost_guess (n : ℕ) : ℚ := (cgTenths n : ℚ) / 10 * n

/-- Innermost loop of good_size: for (f235711 = f2357; f235711 < bestfac;
f235711 *= 11) if (f235711 >= n) bestfac = f235711. -/
def gsLoop11 : ℕ → ℕ → ℕ → ℕ → ℕ
  | 0, _, _, best => best
  | fuel + 1, n, f, best =>
    if f < best then gsLoop11 fuel n (f * 11) (if n ≤ f then f else best)
    else best

/-- Loop over powers of 7 of good_size; each iteration runs the 11 loop. -/
def gsLoop7 : ℕ → ℕ → ℕ → ℕ → ℕ
  | 0, _, _, best => best
  | fuel + 1, n, f, best =>
    if f < best then gsLoop7 fuel n (f * 7) (gsLoop11 (fuel + 1) n f best)
    else best

/-- Loop over powers of 5 of good_size. -/
def gsLoop5 : ℕ → ℕ → ℕ → ℕ → ℕ
  | 0, _, _, best => best
  | fuel + 1, n, f, best =>
    if f < best then gsLoop5 fuel n (f * 5) (gsLoop7 (fuel + 1) n f best)
    else best

/-- Loop over powers of 3 of good_size. -/
def gsLoop3 : ℕ → ℕ → ℕ → ℕ → ℕ
  | 0, _, _, best => best
  | fuel + 1, n, f, best =>
    if f < best then gsLoop3 fuel n (f * 3) (gsLoop5 (fuel + 1) n f best)
    else best

/-- Loop over powers of 2 of good_size. -/
def gsLoop2 : ℕ → ℕ → ℕ → ℕ → ℕ
  | 0, _, _, best => best
  | fuel + 1, n, f, best =>
    if f < best then gsLoop2 fuel n (f * 2) (gsLoop3 (fuel + 1) n f best)
    else best

/-- Function good_size of the source: smallest composite of 2, 3, 5, 7, 11
at least n, found by bounded search starting from bestfac = 2*n.  The fuel
2*n strictly exceeds the measure bestfac - f of every loop. -/
def good_size (n : ℕ) : ℕ :=
  if n ≤ 12 then n
  else gsLoop2 (2 * n) n 1 (2 * n)

/-- Constant NFCT = 25 of the source: hard cap on the number of factors. -/
def NFCT : ℕ := 25

/-- Method add_factor: throws "too many prime factors" when the factor count
has reached NFCT, otherwise appends the factor. -/
def addFactorE (acc : List ℕ) (f : ℕ) : Except String (List ℕ) :=
  if NFCT ≤ acc.length then .error "too many prime factors" else .ok (acc ++ [f])

/-- Loop while ((len & 3) == 0) { add_factor(4); len >>= 2; } of factorize. -/
def peel4sE : ℕ → ℕ → List ℕ → Except String (List ℕ × ℕ)
  | 0, len, acc => .ok (acc, len)
  | fuel + 1, len, acc =>
    if len % 4 = 0 then
      match addFactorE acc 4 with
      | .error e => .error e
      | .ok acc2 => peel4sE fuel (len / 4) acc2
    else .ok (acc, len)

/-- Swap of fct[0].fct and fct[nfct-1].fct on the factor list: the rotation
that brings the single factor 2 to the front. -/
def swapFirstLast : List ℕ → List ℕ
  | [] => []
  | a :: rest =>
    match rest.getLast? with
    | none => [a]
    | some b => b :: (rest.dropLast ++ [a])

/-- Inner loop while ((len % divisor) == 0) { add_factor(divisor);
len /= divisor; } of factorize. -/
def divideOutE : ℕ → ℕ → ℕ → List ℕ → Except String (List ℕ × ℕ)
  | 0, len, _, acc => .ok (acc, len)
  | fuel + 1, len, d, acc =>
    if len % d = 0 then
      match addFactorE acc d with
      | .error e => .error e
      | .ok acc2 => divideOutE fuel (len / d) d acc2
    else .ok (acc, len)

/-- Odd trial-division loop of factorize: for (divisor = 3; (len > 1) &&
(divisor < maxl); divisor += 2) if ((len % divisor) == 0) { divide out;
maxl = sqrt(len) + 1; }. -/
def oddLoopE : ℕ → ℕ → ℕ → ℕ → List ℕ → Except String (List ℕ × ℕ)
  | 0, len, _, _, acc => .ok (acc, len)
  | fuel + 1, len, d, maxl, acc =>
    if 1 < len ∧ d < maxl then
      if len % d = 0 then
        match divideOutE len len d acc with
        | .error e => .error e
        | .ok (acc2, len2) => oddLoopE fuel len2 (d + 2) (isqrt len2 + 1) acc2
      else oddLoopE fuel len (d + 2) maxl acc
    else .ok (acc, len)

/-- Method factorize of cfftp and rfftp: peel factors of 4; peel a single
remaining 2 and rotate it to the front; trial-divide by odd numbers up to
sqrt; append the residue.  Errors propagate from add_factor. -/
def factorizeE (n : ℕ) : Except String (List ℕ) :=
  match peel4sE n n [] with
  | .error e => .error e
  | .ok (acc, len) =>
    match (if len % 2 = 0 then
             match addFactorE acc 2 with
             | .error e => .error e
             | .ok acc2 => .ok (swapFirstLast acc2, len / 2)
           else .ok (acc, len) : Except String (List ℕ × ℕ)) with
    | .error e => .error e
    | .ok (acc2, len2) =>
      match oddLoopE len2 len2 3 (isqrt len2 + 1) acc2 with
      | .error e => .error e
      | .ok (acc3, len3) =>
        if 1 < len3 then addFactorE acc3 len3 else .ok acc3

/-- Constructor cfftp::cfftp reduced to the decisions it can fail on: the
zero-length check, the early return for length 1, and the factorization with
its NFCT cap (the twiddle tables are pure real arithmetic and cannot fail;
allocation failure is outside the model). -/
def cfftp_new (n : ℕ) : Except String (List ℕ) :=
  if n = 0 then .error "zero length FFT requested"
  else if n = 1 then .ok []
  else factorizeE n

/-- Closed form of the factor list that a successful factorize computes: the
single 2 (exactly when the power of two dividing n is odd), then the peeled
4s, then the odd prime factorization in increasing order, residue included. -/
def factorList (n : ℕ) : List ℕ :=
  (if Odd (n.factorization 2) then [2] else []) ++
    List.replicate (n.factorization 2 / 2) 4 ++
    Nat.primeFactorsList (n / 2 ^ n.factorization 2)

/-- Number of factors that the factorization of n produces. -/
def numFactors (n : ℕ) : ℕ := (factorList n).length

/-- Which inner plan a dispatcher constructs: exactly one of the two. -/
inductive PlanChoice : Type
  | pack : PlanChoice
  | blue : PlanChoice

/-- Constructor pocketfft_c::pocketfft_c, reduced to its plan selection. -/
def pocketfft_c_choice (n : ℕ) : Except String PlanChoice :=
  if n = 0 then .error "zero-length FFT requested"
  else if n < 50 ∨ largest_prime_factor n ≤ isqrt n then .ok .pack
  else if (1.5 : ℚ) * (2 * cost_guess (good_size (2 * n - 1))) < cost_guess n
    then .ok .blue
  else .ok .pack

/-- Constructor pocketfft_r::pocketfft_r, reduced to its plan selection.
Note comp1 = 0.5 * cost_guess(length) here, unlike pocketfft_c. -/
def pocketfft_r_choice (n : ℕ) : Except String PlanChoice :=
  if n = 0 then .error "zero-length FFT requested"
  else if n < 50 ∨ largest_prime_factor n ≤ isqrt n then .ok .pack
  else if (1.5 : ℚ) * (2 * cost_guess (good_size (2 * n - 1))) <
      (0.5 : ℚ) * cost_guess n
    then .ok .blue
  else .ok .pack

/-- Dispatch rule asserted by claim C4, for one dispatcher: mixed radix when
n < 50 or the largest prime factor is at most sqrt(n), otherwise Bluestein
exactly when 1.5 * 2 * cost_guess(good_size(2n-1)) < cost_guess(n). -/
def dispatchClaimAt (choice : ℕ → Except String PlanChoice) (n : ℕ) : Prop :=
  ((n < 50 ∨ largest_prime_factor n ≤ isqrt n) → choice n = .ok .pack) ∧
  (¬ (n < 50 ∨ largest_prime_factor n ≤ isqrt n) →
    (choice n = .ok .blue ↔
      (1.5 : ℚ) * (2 * cost_guess (good_size (2 * n - 1))) < cost_guess n) ∧
    (choice n = .ok .pack ↔
      ¬ ((1.5 : ℚ) * (2 * cost_guess (good_size (2 * n - 1))) < cost_guess n)))

/-- Per-factor data of cfftp (struct fctdata): the factor and its twiddle
arrays tw and tws, as flat buffers. -/
structure CFct : Type where
  fct : ℕ
  tw : ℕ → CQ
  tws : ℕ → CQ

/-- Butterfly pass2 of cfftp. -/
def pass2 (bwd : Bool) (ido l1 : ℕ) (cc ch : BufC) (wa : ℕ → CQ) : BufC :=
  let cdim := 2
  let rdC := fun (a b k : ℕ) => cc (a + ido * (b + cdim * k))
  let chI := fun (a k c : ℕ) => a + ido * (k + l1 * c)
  let waI := fun (x i : ℕ) => wa ((i - 1) + x * (ido - 1))
  if ido = 1 then
    iterRange 0 l1 1 (fun k ch =>
      let ch := upd ch (chI 0 k 0) (cadd (rdC 0 0 k) (rdC 0 1 k))
      upd ch (chI 0 k 1) (csub (rdC 0 0 k) (rdC 0 1 k))) ch
  else
    iterRange 0 l1 1 (fun k ch =>
      let ch := upd ch (chI 0 k 0) (cadd (rdC 0 0 k) (rdC 0 1 k))
      let ch := upd ch (chI 0 k 1) (csub (rdC 0 0 k) (rdC 0 1 k))
      iterRange 1 (ido - 1) 1 (fun i ch =>
        let ch := upd ch (chI i k 0) (cadd (rdC i 0 k) (rdC i 1 k))
        upd ch (chI i k 1)
          (special_mul bwd (csub (rdC i 0 k) (rdC i 1 k)) (waI 0 i))) ch) ch

/-- Butterfly pass3 of cfftp. -/
def pass3 (bwd : Bool) (ido l1 : ℕ) (cc ch : BufC) (wa : ℕ → CQ) : BufC :=
  let cdim := 3
  let tw1r : ℚ := -0.5
  let tw1i : ℚ := (if bwd then 1 else -1) * 0.86602540378443864676
  let rdC := fun (a b k : ℕ) => cc (a + ido * (b + cdim * k))
  let chI := fun (a k c : ℕ) => a + ido * (k + l1 * c)
  let waI := fun (x i : ℕ) => wa ((i - 1) + x * (ido - 1))
  if ido = 1 then
    iterRange 0 l1 1 (fun k ch =>
      let t0 := rdC 0 0 k
      let p := pmc (rdC 0 1 k) (rdC 0 2 k)
      let t1 := p.1
      let t2 := p.2
      let ch := upd ch (chI 0 k 0) (cadd t0 t1)
      let ca := cadd t0 (cscale t1 tw1r)
      let cb := rot90 (cscale t2 tw1i)
      let ch := upd ch (chI 0 k 1) (cadd ca cb)
      upd ch (chI 0 k 2) (csub ca cb)) ch
  else
    iterRange 0 l1 1 (fun k ch =>
      let t0 := rdC 0 0 k
      let p := pmc (rdC 0 1 k) (rdC 0 2 k)
      let t1 := p.1
      let t2 := p.2
      let ch := upd ch (chI 0 k 0) (cadd t0 t1)
      let ca := cadd t0 (cscale t1 tw1r)
      let cb := rot90 (cscale t2 tw1i)
      let ch := upd ch (chI 0 k 1) (cadd ca cb)
      let ch := upd ch (chI 0 k 2) (csub ca cb)
      iterRange 1 (ido - 1) 1 (fun i ch =>
        let t0 := rdC i 0 k
        let p := pmc (rdC i 1 k) (rdC i 2 k)
        let t1 := p.1
        let t2 := p.2
        let ch := upd ch (chI i k 0) (cadd t0 t1)
        let ca := cadd t0 (cscale t1 tw1r)
        let cb := rot90 (cscale t2 tw1i)
        let q := pmc ca cb
        let ch := upd ch (chI i k 1) (special_mul bwd q.1 (waI 0 i))
        upd ch (chI i k 2) (special_mul bwd q.2 (waI 1 i))) ch) ch

/-- Butterfly pass4 of cfftp. -/
def pass4 (bwd : Bool) (ido l1 : ℕ) (cc ch : BufC) (wa : ℕ → CQ) : BufC :=
  let cdim := 4
  let rdC := fun (a b k : ℕ) => cc (a + ido * (b + cdim * k))
  let chI := fun (a k c : ℕ) => a + ido * (k + l1 * c)
  let waI := fun (x i : ℕ) => wa ((i - 1) + x * (ido - 1))
  if ido = 1 then
    iterRange 0 l1 1 (fun k ch =>
      let p1 := pmc (rdC 0 0 k) (rdC 0 2 k)
      let t2 := p1.1
      let t1 := p1.2
      let p2 := pmc (rdC 0 1 k) (rdC 0 3 k)
      let t3 := p2.1
      let t4 := if bwd then rot90 p2.2 else rotm90 p2.2
      let ch := upd ch (chI 0 k 0) (cadd t2 t3)
      let ch := upd ch (chI 0 k 2) (csub t2 t3)
      let ch := upd ch (chI 0 k 1) (cadd t1 t4)
      upd ch (chI 0 k 3) (csub t1 t4)) ch
  else
    iterRange 0 l1 1 (fun k ch =>
      let p1 := pmc (rdC 0 0 k) (rdC 0 2 k)
      let t2 := p1.1
      let t1 := p1.2
      let p2 := pmc (rdC 0 1 k) (rdC 0 3 k)
      let t3 := p2.1
      let t4 := if bwd then rot90 p2.2 else rotm90 p2.2
      let ch := upd ch (chI 0 k 0) (cadd t2 t3)
      let ch := upd ch (chI 0 k 2) (csub t2 t3)
      let ch := upd ch (chI 0 k 1) (cadd t1 t4)
      let ch := upd ch (chI 0 k 3) (csub t1 t4)
      iterRange 1 (ido - 1) 1 (fun i ch =>
        let p1 := pmc (rdC i 0 k) (rdC i 2 k)
        let t2 := p1.1
        let t1 := p1.2
        let p2 := pmc (rdC i 1 k) (rdC i 3 k)
        let t3 := p2.1
        let t4 := if bwd then rot90 p2.2 else rotm90 p2.2
        let ch := upd ch (chI i k 0) (cadd t2 t3)
        let c3 := csub t2 t3
        let c2 := cadd t1 t4
        let c4 := csub t1 t4
        let ch := upd ch (chI i k 1) (special_mul bwd c2 (waI 0 i))
        let ch := upd ch (chI i k 2) (special_mul bwd c3 (waI 1 i))
        upd ch (chI i k 3) (special_mul bwd c4 (waI 2 i))) ch) ch

/-- Butterfly pass5 of cfftp. -/
def pass5 (bwd : Bool) (ido l1 : ℕ) (cc ch : BufC) (wa : ℕ → CQ) : BufC :=
  let cdim := 5
  let tw1r : ℚ := 0.3090169943749474241
  let tw1i : ℚ := (if bwd then 1 else -1) * 0.95105651629515357212
  let tw2r : ℚ := -0.8090169943749474241
  let tw2i : ℚ := (if bwd then 1 else -1) * 0.58778525229247312917
  let rdC := fun (a b k : ℕ) => cc (a + ido * (b + cdim * k))
  let chI := fun (a k c : ℕ) => a + ido * (k + l1 * c)
  let waI := fun (x i : ℕ) => wa ((i - 1) + x * (ido - 1))
  let parta := fun (twar twbr twai twbi : ℚ) (t0 t1 t2 t3 t4 : CQ) =>
    let ca : CQ := (t0.1 + twar * t1.1 + twbr * t2.1,
                    t0.2 + twar * t1.2 + twbr * t2.2)
    let cb : CQ := (-(twai * t4.2 + twbi * t3.2), twai * t4.1 + twbi * t3.1)
    (cadd ca cb, csub ca cb)
  if ido = 1 then
    iterRange 0 l1 1 (fun k ch =>
      let t0 := rdC 0 0 k
      let p1 := pmc (rdC 0 1 k) (rdC 0 4 k)
      let t1 := p1.1
      let t4 := p1.2
      let p2 := pmc (rdC 0 2 k) (rdC 0 3 k)
      let t2 := p2.1
      let t3 := p2.2
      let ch := upd ch (chI 0 k 0)
        (t0.1 + t1.1 + t2.1, t0.2 + t1.2 + t2.2)
      let q1 := parta tw1r tw2r tw1i tw2i t0 t1 t2 t3 t4
      let ch := upd ch (chI 0 k 1) q1.1
      let ch := upd ch (chI 0 k 4) q1.2
      let q2 := parta tw2r tw1r tw2i (-tw1i) t0 t1 t2 t3 t4
      let ch := upd ch (chI 0 k 2) q2.1
      upd ch (chI 0 k 3) q2.2) ch
  else
    iterRange 0 l1 1 (fun k ch =>
      let t0 := rdC 0 0 k
      let p1 := pmc (rdC 0 1 k) (rdC 0 4 k)
      let t1 := p1.1
      let t4 := p1.2
      let p2 := pmc (rdC 0 2 k) (rdC 0 3 k)
      let t2 := p2.1
      let t3 := p2.2
      let ch := upd ch (chI 0 k 0)
        (t0.1 + t1.1 + t2.1, t0.2 + t1.2 + t2.2)
      let q1 := parta tw1r tw2r tw1i tw2i t0 t1 t2 t3 t4
      let ch := upd ch (chI 0 k 1) q1.1
      let ch := upd ch (chI 0 k 4) q1.2
      let q2 := parta tw2r tw1r tw2i (-tw1i) t0 t1 t2 t3 t4
      let ch := upd ch (chI 0 k 2) q2.1
      let ch := upd ch (chI 0 k 3) q2.2
      iterRange 1 (ido - 1) 1 (fun i ch =>
        let t0 := rdC i 0 k
        let p1 := pmc (rdC i 1 k) (rdC i 4 k)
        let t1 := p1.1
        let t4 := p1.2
        let p2 := pmc (rdC i 2 k) (rdC i 3 k)
        let t2 := p2.1
        let t3 := p2.2
        let ch := upd ch (chI i k 0)
          (t0.1 + t1.1 + t2.1, t0.2 + t1.2 + t2.2)
        let q1 := parta tw1r tw2r tw1i tw2i t0 t1 t2 t3 t4
        let ch := upd ch (chI i k 1) (special_mul bwd q1.1 (waI 0 i))
        let ch := upd ch (chI i k 4) (special_mul bwd q1.2 (waI 3 i))
        let q2 := parta tw2r tw1r tw2i (-tw1i) t0 t1 t2 t3 t4
        let ch := upd ch (chI i k 2) (special_mul bwd q2.1 (waI 1 i))
        upd ch (chI i k 3) (special_mul bwd q2.2 (waI 2 i))) ch) ch

/-- Butterfly pass7 of cfftp. -/
def pass7 (bwd : Bool) (ido l1 : ℕ) (cc ch : BufC) (wa : ℕ → CQ) : BufC :=
  let cdim := 7
  let tw1r : ℚ := 0.623489801858733530525
  let tw1i : ℚ := (if bwd then 1 else -1) * 0.7818314824680298087084
  let tw2r : ℚ := -0.222520933956314404289
  let tw2i : ℚ := (if bwd then 1 else -1) * 0.9749279121818236070181
  let tw3r : ℚ := -0.9009688679024191262361
  let tw3i : ℚ := (if bwd then 1 else -1) * 0.4338837391175581204758
  let rdC := fun (a b k : ℕ) => cc (a + ido * (b + cdim * k))
  let chI := fun (a k c : ℕ) => a + ido * (k + l1 * c)
  let waI := fun (x i : ℕ) => wa ((i - 1) + x * (ido - 1))
  let parta := fun (x1 x2 x3 y1 y2 y3 : ℚ) (t1 t2 t3 t4 t5 t6 t7 : CQ) =>
    let ca : CQ := (t1.1 + x1 * t2.1 + x2 * t3.1 + x3 * t4.1,
                    t1.2 + x1 * t2.2 + x2 * t3.2 + x3 * t4.2)
    let cb : CQ := (-(y1 * t7.2 + y2 * t6.2 + y3 * t5.2),
                    y1 * t7.1 + y2 * t6.1 + y3 * t5.1)
    (cadd ca cb, csub ca cb)
  let body := fun (k i : ℕ) (ch : BufC) (twiddle : Bool) =>
    let t1 := rdC i 0 k
    let p2 := pmc (rdC i 1 k) (rdC i 6 k)
    let t2 := p2.1
    let t7 := p2.2
    let p3 := pmc (rdC i 2 k) (rdC i 5 k)
    let t3 := p3.1
    let t6 := p3.2
    let p4 := pmc (rdC i 3 k) (rdC i 4 k)
    let t4 := p4.1
    let t5 := p4.2
    let ch := upd ch (chI i k 0)
      (t1.1 + t2.1 + t3.1 + t4.1, t1.2 + t2.2 + t3.2 + t4.2)
    let q1 := parta tw1r tw2r tw3r tw1i tw2i tw3i t1 t2 t3 t4 t5 t6 t7
    let q2 := parta tw2r tw3r tw1r tw2i (-tw3i) (-tw1i) t1 t2 t3 t4 t5 t6 t7
    let q3 := parta tw3r tw1r tw2r tw3i (-tw1i) tw2i t1 t2 t3 t4 t5 t6 t7
    if twiddle then
      let ch := upd ch (chI i k 1) (special_mul bwd q1.1 (waI 0 i))
      let ch := upd ch (chI i k 6) (special_mul bwd q1.2 (waI 5 i))
      let ch := upd ch (chI i k 2) (special_mul bwd q2.1 (waI 1 i))
      let ch := upd ch (chI i k 5) (special_mul bwd q2.2 (waI 4 i))
      let ch := upd ch (chI i k 3) (special_mul bwd q3.1 (waI 2 i))
      upd ch (chI i k 4) (special_mul bwd q3.2 (waI 3 i))
    else
      let ch := upd ch (chI i k 1) q1.1
      let ch := upd ch (chI i k 6) q1.2
      let ch := upd ch (chI i k 2) q2.1
      let ch := upd ch (chI i k 5) q2.2
      let ch := upd ch (chI i k 3) q3.1
      upd ch (chI i k 4) q3.2
  if ido = 1 then
    iterRange 0 l1 1 (fun k ch => body k 0 ch false) ch
  else
    iterRange 0 l1 1 (fun k ch =>
      let ch := body k 0 ch false
      iterRange 1 (ido - 1) 1 (fun i ch => body k i ch true) ch) ch

/-- Butterfly pass11 of cfftp. -/
def pass11 (bwd : Bool) (ido l1 : ℕ) (cc ch : BufC) (wa : ℕ → CQ) : BufC :=
  let cdim := 11
  let tw1r : ℚ := 0.8412535328311811688618
  let tw1i : ℚ := (if bwd then 1 else -1) * 0.5406408174555975821076
  let tw2r : ℚ := 0.4154150130018864255293
  let tw2i : ℚ := (if bwd then 1 else -1) * 0.9096319953545183714117
  let tw3r : ℚ := -0.1423148382732851404438
  let tw3i : ℚ := (if bwd then 1 else -1) * 0.9898214418809327323761
  let tw4r : ℚ := -0.6548607339452850640569
  let tw4i : ℚ := (if bwd then 1 else -1) * 0.755749574354258283774
  let tw5r : ℚ := -0.9594929736144973898904
  let tw5i : ℚ := (if bwd then 1 else -1) * 0.2817325568414296977114
  let rdC := fun (a b k : ℕ) => cc (a + ido * (b + cdim * k))
  let chI := fun (a k c : ℕ) => a + ido * (k + l1 * c)
  let waI := fun (x i : ℕ) => wa ((i - 1) + x * (ido - 1))
  let parta := fun (x1 x2 x3 x4 x5 y1 y2 y3 y4 y5 : ℚ)
      (t1 t2 t3 t4 t5 t6 t7 t8 t9 t10 t11 : CQ) =>
    let ca : CQ :=
      (t1.1 + x1 * t2.1 + x2 * t3.1 + x3 * t4.1 + x4 * t5.1 + x5 * t6.1,
       t1.2 + x1 * t2.2 + x2 * t3.2 + x3 * t4.2 + x4 * t5.2 + x5 * t6.2)
    let cb : CQ :=
      (-(y1 * t11.2 + y2 * t10.2 + y3 * t9.2 + y4 * t8.2 + y5 * t7.2),
       y1 * t11.1 + y2 * t10.1 + y3 * t9.1 + y4 * t8.1 + y5 * t7.1)
    (cadd ca cb, csub ca cb)
  let body := fun (k i : ℕ) (ch : BufC) (twiddle : Bool) =>
    let t1 := rdC i 0 k
    let p2 := pmc (rdC i 1 k) (rdC i 10 k)
    let t2 := p2.1
    let t11 := p2.2
    let p3 := pmc (rdC i 2 k) (rdC i 9 k)
    let t3 := p3.1
    let t10 := p3.2
    let p4 := pmc (rdC i 3 k) (rdC i 8 k)
    let t4 := p4.1
    let t9 := p4.2
    let p5 := pmc (rdC i 4 k) (rdC i 7 k)
    let t5 := p5.1
    let t8 := p5.2
    let p6 := pmc (rdC i 5 k) (rdC i 6 k)
    let t6 := p6.1
    let t7 := p6.2
    let ch := upd ch (chI i k 0)
      (t1.1 + t2.1 + t3.1 + t4.1 + t5.1 + t6.1,
       t1.2 + t2.2 + t3.2 + t4.2 + t5.2 + t6.2)
    let q1 := parta tw1r tw2r tw3r tw4r tw5r
      tw1i tw2i tw3i tw4i tw5i t1 t2 t3 t4 t5 t6 t7 t8 t9 t10 t11
    let q2 := parta tw2r tw4r tw5r tw3r tw1r
      tw2i tw4i (-tw5i) (-tw3i) (-tw1i) t1 t2 t3 t4 t5 t6 t7 t8 t9 t10 t11
    let q3 := parta tw3r tw5r tw2r tw1r tw4r
      tw3i (-tw5i) (-tw2i) tw1i tw4i t1 t2 t3 t4 t5 t6 t7 t8 t9 t10 t11
    let q4 := parta tw4r tw3r tw1r tw5r tw2r
      tw4i (-tw3i) tw1i tw5i (-tw2i) t1 t2 t3 t4 t5 t6 t7 t8 t9 t10 t11
    let q5 := parta tw5r tw1r tw4r tw2r tw3r
      tw5i (-tw1i) tw4i (-tw2i) tw3i t1 t2 t3 t4 t5 t6 t7 t8 t9 t10 t11
    if twiddle then
      let ch := upd ch (chI i k 1) (special_mul bwd q1.1 (waI 0 i))
      let ch := upd ch (chI i k 10) (special_mul bwd q1.2 (waI 9 i))
      let ch := upd ch (chI i k 2) (special_mul bwd q2.1 (waI 1 i))
      let ch := upd ch (chI i k 9) (special_mul bwd q2.2 (waI 8 i))
      let ch := upd ch (chI i k 3) (special_mul bwd q3.1 (waI 2 i))
      let ch := upd ch (chI i k 8) (special_mul bwd q3.2 (waI 7 i))
      let ch := upd ch (chI i k 4) (special_mul bwd q4.1 (waI 3 i))
      let ch := upd ch (chI i k 7) (special_mul bwd q4.2 (waI 6 i))
      let ch := upd ch (chI i k 5) (special_mul bwd q5.1 (waI 4 i))
      upd ch (chI i k 6) (special_mul bwd q5.2 (waI 5 i))
    else
      let ch := upd ch (chI i k 1) q1.1
      let ch := upd ch (chI i k 10) q1.2
      let ch := upd ch (chI i k 2) q2.1
      let ch := upd ch (chI i k 9) q2.2
      let ch := upd ch (chI i k 3) q3.1
      let ch := upd ch (chI i k 8) q3.2
      let ch := upd ch (chI i k 4) q4.1
      let ch := upd ch (chI i k 7) q4.2
      let ch := upd ch (chI i k 5) q5.1
      upd ch (chI i k 6) q5.2
  if ido = 1 then
    iterRange 0 l1 1 (fun k ch => body k 0 ch false) ch
  else
    iterRange 0 l1 1 (fun k ch =>
      let ch := body k 0 ch false
      iterRange 1 (ido - 1) 1 (fun i ch => body k i ch true) ch) ch

/-- Single-column tail of the root-of-unity scan in passg: the loop
for (; j < ipph; ++j, --jc) with its iwal increment and wrap. -/
def passg_scan_single (wrap : ℕ → ℕ) (wal : ℕ → CQ) (idl1 l lc ipph : ℕ)
    (ch : BufC) : ℕ → ℕ → ℕ → ℕ → BufC → BufC
  | 0, _, _, _, cc => cc
  | fuel + 1, j, jc, iwal, cc =>
    if j < ipph then
      let iwal2 := wrap (iwal + l)
      let xwal := wal iwal2
      let cc2 := iterRange 0 idl1 1 (fun ik cc =>
        let v1 := cc (ik + idl1 * l)
        let v2 := cc (ik + idl1 * lc)
        let cc := upd cc (ik + idl1 * l)
          (v1.1 + (ch (ik + idl1 * j)).1 * xwal.1,
           v1.2 + (ch (ik + idl1 * j)).2 * xwal.1)
        upd cc (ik + idl1 * lc)
          (v2.1 - (ch (ik + idl1 * jc)).2 * xwal.2,
           v2.2 + (ch (ik + idl1 * jc)).1 * xwal.2)) cc
      passg_scan_single wrap wal idl1 l lc ipph ch fuel (j + 1) (jc - 1) iwal2 cc2
    else cc

/-- Two-column part of the root-of-unity scan in passg: the unrolled loop
for (; j < ipph - 1; j += 2, jc -= 2), falling through to the single
column tail. -/
def passg_scan_pair (wrap : ℕ → ℕ) (wal : ℕ → CQ) (idl1 l lc ipph : ℕ)
    (ch : BufC) : ℕ → ℕ → ℕ → ℕ → BufC → BufC
  | 0, _, _, _, cc => cc
  | fuel + 1, j, jc, iwal, cc =>
    if j < ipph - 1 then
      let iwal1 := wrap (iwal + l)
      let xwal := wal iwal1
      let iwal2 := wrap (iwal1 + l)
      let xwal2 := wal iwal2
      let cc2 := iterRange 0 idl1 1 (fun ik cc =>
        let v1 := cc (ik + idl1 * l)
        let v2 := cc (ik + idl1 * lc)
        let cc := upd cc (ik + idl1 * l)
          (v1.1 + (ch (ik + idl1 * j)).1 * xwal.1 +
            (ch (ik + idl1 * (j + 1))).1 * xwal2.1,
           v1.2 + (ch (ik + idl1 * j)).2 * xwal.1 +
            (ch (ik + idl1 * (j + 1))).2 * xwal2.1)
        upd cc (ik + idl1 * lc)
          (v2.1 - ((ch (ik + idl1 * jc)).2 * xwal.2 +
            (ch (ik + idl1 * (jc - 1))).2 * xwal2.2),
           v2.2 + ((ch (ik + idl1 * jc)).1 * xwal.2 +
            (ch (ik + idl1 * (jc - 1))).1 * xwal2.2))) cc
      passg_scan_pair wrap wal idl1 l lc ipph ch fuel (j + 2) (jc - 2) iwal2 cc2
    else passg_scan_single wrap wal idl1 l lc ipph ch (fuel + 1) j jc iwal cc

/-- Accumulation phase of passg over l = 1 .. ipph-1: initial two-column
combination followed by the wrapped root-of-unity scan. -/
def passg_phase3 (wrap : ℕ → ℕ) (wal : ℕ → CQ) (ip ipph idl1 : ℕ)
    (ch : BufC) (cc : BufC) : BufC :=
  iterRange 1 (ipph - 1) 1 (fun l cc =>
    let lc := ip - l
    let cc := iterRange 0 idl1 1 (fun ik cc =>
      let cc := upd cc (ik + idl1 * l)
        ((ch (ik + idl1 * 0)).1 + (wal l).1 * (ch (ik + idl1 * 1)).1 +
           (wal (2 * l)).1 * (ch (ik + idl1 * 2)).1,
         (ch (ik + idl1 * 0)).2 + (wal l).1 * (ch (ik + idl1 * 1)).2 +
           (wal (2 * l)).1 * (ch (ik + idl1 * 2)).2)
      upd cc (ik + idl1 * lc)
        (-((wal l).2 * (ch (ik + idl1 * (ip - 1))).2) -
           (wal (2 * l)).2 * (ch (ik + idl1 * (ip - 2))).2,
         (wal l).2 * (ch (ik + idl1 * (ip - 1))).1 +
           (wal (2 * l)).2 * (ch (ik + idl1 * (ip - 2))).1)) cc
    passg_scan_pair wrap wal idl1 l lc ipph ch ipph 3 (ip - 3) (2 * l) cc) cc

/-- Generic butterfly passg of cfftp, parameterized by the index wrap used
in its root-of-unity scan (the source uses the strict test, wrapGt ip; the
variant with wrapGe ip is the refinement proposed by the spec).  Writes its
result into cc and uses ch as scratch, returning (cc, ch). -/
def passg_core (wrap : ℕ → ℕ) (bwd : Bool) (ido ip l1 : ℕ)
    (cc ch : BufC) (wa csarr : ℕ → CQ) : BufC × BufC :=
  let cdim := ip
  let ipph := (ip + 1) / 2
  let idl1 := ido * l1
  let wal : ℕ → CQ := fun i =>
    if i = 0 then (1, 0)
    else ((csarr i).1, if bwd then (csarr i).2 else -(csarr i).2)
  let ch := iterRange 0 l1 1 (fun k ch =>
    iterRange 0 ido 1 (fun i ch =>
      upd ch (i + ido * (k + l1 * 0)) (cc (i + ido * (0 + cdim * k)))) ch) ch
  let ch := iterRange 1 (ipph - 1) 1 (fun j ch =>
    let jc := ip - j
    iterRange 0 l1 1 (fun k ch =>
      iterRange 0 ido 1 (fun i ch =>
        let p := pmc (cc (i + ido * (j + cdim * k)))
          (cc (i + ido * (jc + cdim * k)))
        let ch := upd ch (i + ido * (k + l1 * j)) p.1
        upd ch (i + ido * (k + l1 * jc)) p.2) ch) ch) ch
  let cc := iterRange 0 l1 1 (fun k cc =>
    iterRange 0 ido 1 (fun i cc =>
      let tmp := iterRange 1 (ipph - 1) 1 (fun j t =>
        cadd t (ch (i + ido * (k + l1 * j)))) (ch (i + ido * (k + l1 * 0)))
      upd cc (i + ido * (k + l1 * 0)) tmp) cc) cc
  let cc := passg_phase3 wrap wal ip ipph idl1 ch cc
  if ido = 1 then
    let cc := iterRange 1 (ipph - 1) 1 (fun j cc =>
      let jc := ip - j
      iterRange 0 idl1 1 (fun ik cc =>
        let t1 := cc (ik + idl1 * j)
        let t2 := cc (ik + idl1 * jc)
        let cc := upd cc (ik + idl1 * j) (cadd t1 t2)
        upd cc (ik + idl1 * jc) (csub t1 t2)) cc) cc
    (cc, ch)
  else
    let cc := iterRange 1 (ipph - 1) 1 (fun j cc =>
      let jc := ip - j
      iterRange 0 l1 1 (fun k cc =>
        let t1 := cc (0 + ido * (k + l1 * j))
        let t2 := cc (0 + ido * (k + l1 * jc))
        let cc := upd cc (0 + ido * (k + l1 * j)) (cadd t1 t2)
        let cc := upd cc (0 + ido * (k + l1 * jc)) (csub t1 t2)
        iterRange 1 (ido - 1) 1 (fun i cc =>
          let p := pmc (cc (i + ido * (k + l1 * j)))
            (cc (i + ido * (k + l1 * jc)))
          let cc := upd cc (i + ido * (k + l1 * j))
            (special_mul bwd p.1 (wa ((j - 1) * (ido - 1) + i - 1)))
          upd cc (i + ido * (k + l1 * jc))
            (special_mul bwd p.2 (wa ((jc - 1) * (ido - 1) + i - 1)))) cc) cc) cc
    (cc, ch)

/-- Generic butterfly passg as in the source: wrap test iwal > ip. -/
def passg (bwd : Bool) (ido ip l1 : ℕ) (cc ch : BufC) (wa csarr : ℕ → CQ) :
    BufC × BufC :=
  passg_core (wrapGt ip) bwd ido ip l1 cc ch wa csarr

/-- Variant of passg with the wrap test iwal >= ip, modelled from the spec
for the refinement comparison of claim C9. -/
def passg_ge (bwd : Bool) (ido ip l1 : ℕ) (cc ch : BufC) (wa csarr : ℕ → CQ) :
    BufC × BufC :=
  passg_core (wrapGe ip) bwd ido ip l1 cc ch wa csarr

/-- Stage loop of pass_all: run one butterfly stage per factor, toggling
between the caller buffer and the scratch buffer (passg swaps twice, so it
does not toggle).  The state is (p1, p2, p1IsC, l1) where p1IsC records
whether p1 is the storage of the caller buffer c. -/
def pass_all_loop (bwd : Bool) (length : ℕ) (fcts : List CFct) (c : BufC) :
    BufC × BufC × Bool × ℕ :=
  fcts.foldl (fun (st : BufC × BufC × Bool × ℕ) f =>
      let p1 := st.1
      let p2 := st.2.1
      let p1IsC := st.2.2.1
      let l1 := st.2.2.2
      let ip := f.fct
      let l2 := ip * l1
      let ido := length / l2
      if ip = 4 then (pass4 bwd ido l1 p1 p2 f.tw, p1, !p1IsC, l2)
      else if ip = 2 then (pass2 bwd ido l1 p1 p2 f.tw, p1, !p1IsC, l2)
      else if ip = 3 then (pass3 bwd ido l1 p1 p2 f.tw, p1, !p1IsC, l2)
      else if ip = 5 then (pass5 bwd ido l1 p1 p2 f.tw, p1, !p1IsC, l2)
      else if ip = 7 then (pass7 bwd ido l1 p1 p2 f.tw, p1, !p1IsC, l2)
      else if ip = 11 then (pass11 bwd ido l1 p1 p2 f.tw, p1, !p1IsC, l2)
      else
        let pr := passg bwd ido ip l1 p1 p2 f.tw f.tws
        (pr.1, pr.2, p1IsC, l2))
    (c, (fun _ => ((0 : ℚ), (0 : ℚ))), true, 1)

/-- Final copy and scale of pass_all (source lines with the fct != 1.
branches): the result lives in p1, which is copied back into the caller
buffer if needed, applying the scale factor in the same pass. -/
def pass_all_finish (length : ℕ) (p1 p2 : BufC) (p1IsC : Bool) (fact : ℚ) :
    BufC :=
  if p1IsC = false then
    (if fact ≠ 1 then fun i => if i < length then cscale (p1 i) fact else p2 i
     else fun i => if i < length then p1 i else p2 i)
  else
    (if fact ≠ 1 then fun i => if i < length then cscale (p1 i) fact else p1 i
     else p1)

/-- Driver pass_all of cfftp: stage loop over all factors, then scale and
copy back. -/
def pass_all (bwd : Bool) (length : ℕ) (fcts : List CFct) (c : BufC)
    (fact : ℚ) : BufC :=
  if length = 1 then upd c 0 (cscale (c 0) fact)
  else
    let st := pass_all_loop bwd length fcts c
    pass_all_finish length st.1 st.2.1 st.2.2.1 fact

/-- Concrete complex input buffer (1,0),(2,0),(3,0),(4,0) for the N = 4
transform check. -/
def c2input : BufC := fun i =>
  if i = 0 then ((1 : ℚ), (0 : ℚ)) else if i = 1 then (2, 0)
  else if i = 2 then (3, 0) else if i = 3 then (4, 0) else (0, 0)

/-- Real forward butterfly radf2 of rfftp. -/
def radf2 (ido l1 : ℕ) (cc ch : BufR) (wa : ℕ → ℚ) : BufR :=
  let cdim := 2
  let ccI := fun (a b c : ℕ) => a + ido * (b + l1 * c)
  let chI := fun (a b c : ℕ) => a + ido * (b + cdim * c)
  let waI := fun (x i : ℕ) => wa (i + x * (ido - 1))
  let ch := iterRange 0 l1 1 (fun k ch =>
    let ch := upd ch (chI 0 0 k) (cc (ccI 0 k 0) + cc (ccI 0 k 1))
    upd ch (chI (ido - 1) 1 k) (cc (ccI 0 k 0) - cc (ccI 0 k 1))) ch
  let ch := if ido % 2 = 0 then
    iterRange 0 l1 1 (fun k ch =>
      let ch := upd ch (chI 0 1 k) (-(cc (ccI (ido - 1) k 1)))
      upd ch (chI (ido - 1) 0 k) (cc (ccI (ido - 1) k 0))) ch
    else ch
  if ido ≤ 2 then ch
  else
    iterRange 0 l1 1 (fun k ch =>
      iterRange 2 ((ido - 1) / 2) 2 (fun i ch =>
        let ic := ido - i
        let tr2 := waI 0 (i - 2) * cc (ccI (i - 1) k 1) +
          waI 0 (i - 1) * cc (ccI i k 1)
        let ti2 := waI 0 (i - 2) * cc (ccI i k 1) -
          waI 0 (i - 1) * cc (ccI (i - 1) k 1)
        let ch := upd ch (chI (i - 1) 0 k) (cc (ccI (i - 1) k 0) + tr2)
        let ch := upd ch (chI (ic - 1) 1 k) (cc (ccI (i - 1) k 0) - tr2)
        let ch := upd ch (chI i 0 k) (ti2 + cc (ccI i k 0))
        upd ch (chI ic 1 k) (ti2 - cc (ccI i k 0))) ch) ch

/-- Real forward butterfly radf3 of rfftp. -/
def radf3 (ido l1 : ℕ) (cc ch : BufR) (wa : ℕ → ℚ) : BufR :=
  let cdim := 3
  let taur : ℚ := -0.5
  let taui : ℚ := 0.86602540378443864676
  let ccI := fun (a b c : ℕ) => a + ido * (b + l1 * c)
  let chI := fun (a b c : ℕ) => a + ido * (b + cdim * c)
  let waI := fun (x i : ℕ) => wa (i + x * (ido - 1))
  let ch := iterRange 0 l1 1 (fun k ch =>
    let cr2 := cc (ccI 0 k 1) + cc (ccI 0 k 2)
    let ch := upd ch (chI 0 0 k) (cc (ccI 0 k 0) + cr2)
    let ch := upd ch (chI 0 2 k) (taui * (cc (ccI 0 k 2) - cc (ccI 0 k 1)))
    upd ch (chI (ido - 1) 1 k) (cc (ccI 0 k 0) + taur * cr2)) ch
  if ido = 1 then ch
  else
    iterRange 0 l1 1 (fun k ch =>
      iterRange 2 ((ido - 1) / 2) 2 (fun i ch =>
        let ic := ido - i
        let dr2 := waI 0 (i - 2) * cc (ccI (i - 1) k 1) +
          waI 0 (i - 1) * cc (ccI i k 1)
        let di2 := waI 0 (i - 2) * cc (ccI i k 1) -
          waI 0 (i - 1) * cc (ccI (i - 1) k 1)
        let dr3 := waI 1 (i - 2) * cc (ccI (i - 1) k 2) +
          waI 1 (i - 1) * cc (ccI i k 2)
        let di3 := waI 1 (i - 2) * cc (ccI i k 2) -
          waI 1 (i - 1) * cc (ccI (i - 1) k 2)
        let cr2 := dr2 + dr3
        let ci2 := di2 + di3
        let ch := upd ch (chI (i - 1) 0 k) (cc (ccI (i - 1) k 0) + cr2)
        let ch := upd ch (chI i 0 k) (cc (ccI i k 0) + ci2)
        let tr2 := cc (ccI (i - 1) k 0) + taur * cr2
        let ti2 := cc (ccI i k 0) + taur * ci2
        let tr3 := taui * (di2 - di3)
        let ti3 := taui * (dr3 - dr2)
        let ch := upd ch (chI (i - 1) 2 k) (tr2 + tr3)
        let ch := upd ch (chI (ic - 1) 1 k) (tr2 - tr3)
        let ch := upd ch (chI i 2 k) (ti3 + ti2)
        upd ch (chI ic 1 k) (ti3 - ti2)) ch) ch

/-- Real forward butterfly radf4 of rfftp. -/
def radf4 (ido l1 : ℕ) (cc ch : BufR) (wa : ℕ → ℚ) : BufR :=
  let cdim := 4
  let hsqt2 : ℚ := 0.70710678118654752440
  let ccI := fun (a b c : ℕ) => a + ido * (b + l1 * c)
  let chI := fun (a b c : ℕ) => a + ido * (b + cdim * c)
  let waI := fun (x i : ℕ) => wa (i + x * (ido - 1))
  let ch := iterRange 0 l1 1 (fun k ch =>
    let tr1 := cc (ccI 0 k 3) + cc (ccI 0 k 1)
    let ch := upd ch (chI 0 2 k) (cc (ccI 0 k 3) - cc (ccI 0 k 1))
    let tr2 := cc (ccI 0 k 0) + cc (ccI 0 k 2)
    let ch := upd ch (chI (ido - 1) 1 k) (cc (ccI 0 k 0) - cc (ccI 0 k 2))
    let ch := upd ch (chI 0 0 k) (tr2 + tr1)
    upd ch (chI (ido - 1) 3 k) (tr2 - tr1)) ch
  let ch := if ido % 2 = 0 then
    iterRange 0 l1 1 (fun k ch =>
      let ti1 := -hsqt2 * (cc (ccI (ido - 1) k 1) + cc (ccI (ido - 1) k 3))
      let tr1 := hsqt2 * (cc (ccI (ido - 1) k 1) - cc (ccI (ido - 1) k 3))
      let ch := upd ch (chI (ido - 1) 0 k) (cc (ccI (ido - 1) k 0) + tr1)
      let ch := upd ch (chI (ido - 1) 2 k) (cc (ccI (ido - 1) k 0) - tr1)
      let ch := upd ch (chI 0 3 k) (ti1 + cc (ccI (ido - 1) k 2))
      upd ch (chI 0 1 k) (ti1 - cc (ccI (ido - 1) k 2))) ch
    else ch
  if ido ≤ 2 then ch
  else
    iterRange 0 l1 1 (fun k ch =>
      iterRange 2 ((ido - 1) / 2) 2 (fun i ch =>
        let ic := ido - i
        let cr2 := waI 0 (i - 2) * cc (ccI (i - 1) k 1) +
          waI 0 (i - 1) * cc (ccI i k 1)
        let ci2 := waI 0 (i - 2) * cc (ccI i k 1) -
          waI 0 (i - 1) * cc (ccI (i - 1) k 1)
        let cr3 := waI 1 (i - 2) * cc (ccI (i - 1) k 2) +
          waI 1 (i - 1) * cc (ccI i k 2)
        let ci3 := waI 1 (i - 2) * cc (ccI i k 2) -
          waI 1 (i - 1) * cc (ccI (i - 1) k 2)
        let cr4 := waI 2 (i - 2) * cc (ccI (i - 1) k 3) +
          waI 2 (i - 1) * cc (ccI i k 3)
        let ci4 := waI 2 (i - 2) * cc (ccI i k 3) -
          waI 2 (i - 1) * cc (ccI (i - 1) k 3)
        let tr1 := cr4 + cr2
        let tr4 := cr4 - cr2
        let ti1 := ci2 + ci4
        let ti4 := ci2 - ci4
        let tr2 := cc (ccI (i - 1) k 0) + cr3
        let tr3 := cc (ccI (i - 1) k 0) - cr3
        let ti2 := cc (ccI i k 0) + ci3
        let ti3 := cc (ccI i k 0) - ci3
        let ch := upd ch (chI (i - 1) 0 k) (tr2 + tr1)
        let ch := upd ch (chI (ic - 1) 3 k) (tr2 - tr1)
        let ch := upd ch (chI i 0 k) (ti1 + ti2)
        let ch := upd ch (chI ic 3 k) (ti1 - ti2)
        let ch := upd ch (chI (i - 1) 2 k) (tr3 + ti4)
        let ch := upd ch (chI (ic - 1) 1 k) (tr3 - ti4)
        let ch := upd ch (chI i 2 k) (tr4 + ti3)
        upd ch (chI ic 1 k) (tr4 - ti3)) ch) ch

/-- Real forward butterfly radf5 of rfftp. -/
def radf5 (ido l1 : ℕ) (cc ch : BufR) (wa : ℕ → ℚ) : BufR :=
  let cdim := 5
  let tr11 : ℚ := 0.3090169943749474241
  let ti11 : ℚ := 0.95105651629515357212
  let tr12 : ℚ := -0.8090169943749474241
  let ti12 : ℚ := 0.58778525229247312917
  let ccI := fun (a b c : ℕ) => a + ido * (b + l1 * c)
  let chI := fun (a b c : ℕ) => a + ido * (b + cdim * c)
  let waI := fun (x i : ℕ) => wa (i + x * (ido - 1))
  let ch := iterRange 0 l1 1 (fun k ch =>
    let cr2 := cc (ccI 0 k 4) + cc (ccI 0 k 1)
    let ci5 := cc (ccI 0 k 4) - cc (ccI 0 k 1)
    let cr3 := cc (ccI 0 k 3) + cc (ccI 0 k 2)
    let ci4 := cc (ccI 0 k 3) - cc (ccI 0 k 2)
    let ch := upd ch (chI 0 0 k) (cc (ccI 0 k 0) + cr2 + cr3)
    let ch := upd ch (chI (ido - 1) 1 k) (cc (ccI 0 k 0) + tr11 * cr2 + tr12 * cr3)
    let ch := upd ch (chI 0 2 k) (ti11 * ci5 + ti12 * ci4)
    let ch := upd ch (chI (ido - 1) 3 k) (cc (ccI 0 k 0) + tr12 * cr2 + tr11 * cr3)
    upd ch (chI 0 4 k) (ti12 * ci5 - ti11 * ci4)) ch
  if ido = 1 then ch
  else
    iterRange 0 l1 1 (fun k ch =>
      iterRange 2 ((ido - 1) / 2) 2 (fun i ch =>
        let ic := ido - i
        let dr2 := waI 0 (i - 2) * cc (ccI (i - 1) k 1) +
          waI 0 (i - 1) * cc (ccI i k 1)
        let di2 := waI 0 (i - 2) * cc (ccI i k 1) -
          waI 0 (i - 1) * cc (ccI (i - 1) k 1)
        let dr3 := waI 1 (i - 2) * cc (ccI (i - 1) k 2) +
          waI 1 (i - 1) * cc (ccI i k 2)
        let di3 := waI 1 (i - 2) * cc (ccI i k 2) -
          waI 1 (i - 1) * cc (ccI (i - 1) k 2)
        let dr4 := waI 2 (i - 2) * cc (ccI (i - 1) k 3) +
          waI 2 (i - 1) * cc (ccI i k 3)
        let di4 := waI 2 (i - 2) * cc (ccI i k 3) -
          waI 2 (i - 1) * cc (ccI (i - 1) k 3)
        let dr5 := waI 3 (i - 2) * cc (ccI (i - 1) k 4) +
          waI 3 (i - 1) * cc (ccI i k 4)
        let di5 := waI 3 (i - 2) * cc (ccI i k 4) -
          waI 3 (i - 1) * cc (ccI (i - 1) k 4)
        let cr2 := dr5 + dr2
        let ci5 := dr5 - dr2
        let ci2 := di2 + di5
        let cr5 := di2 - di5
        let cr3 := dr4 + dr3
        let ci4 := dr4 - dr3
        let ci3 := di3 + di4
        let cr4 := di3 - di4
        let ch := upd ch (chI (i - 1) 0 k) (cc (ccI (i - 1) k 0) + cr2 + cr3)
        let ch := upd ch (chI i 0 k) (cc (ccI i k 0) + ci2 + ci3)
        let tr2 := cc (ccI (i - 1) k 0) + tr11 * cr2 + tr12 * cr3
        let ti2 := cc (ccI i k 0) + tr11 * ci2 + tr12 * ci3
        let tr3 := cc (ccI (i - 1) k 0) + tr12 * cr2 + tr11 * cr3
        let ti3 := cc (ccI i k 0) + tr12 * ci2 + tr11 * ci3
        let tr5 := cr5 * ti11 + cr4 * ti12
        let tr4 := cr5 * ti12 - cr4 * ti11
        let ti5 := ci5 * ti11 + ci4 * ti12
        let ti4 := ci5 * ti12 - ci4 * ti11
        let ch := upd ch (chI (i - 1) 2 k) (tr2 + tr5)
        let ch := upd ch (chI (ic - 1) 1 k) (tr2 - tr5)
        let ch := upd ch (chI i 2 k) (ti5 + ti2)
        let ch := upd ch (chI ic 1 k) (ti5 - ti2)
        let ch := upd ch (chI (i - 1) 4 k) (tr3 + tr4)
        let ch := upd ch (chI (ic - 1) 3 k) (tr3 - tr4)
        let ch := upd ch (chI i 4 k) (ti4 + ti3)
        upd ch (chI ic 3 k) (ti4 - ti3)) ch) ch

/-- Single-column tail of the root-of-unity scan shared by radfg and radbg
(loop for (; j < ipph; ++j, --jc) with the iang increment and wrap); src is
the buffer read (C2 in radbg, CH2 in radfg is the destination and vice
versa). -/
def radg_scan_single (wrap : ℕ → ℕ) (csarr : ℕ → ℚ) (idl1 l lc ipph : ℕ)
    (src : BufR) : ℕ → ℕ → ℕ → ℕ → BufR → BufR
  | 0, _, _, _, dst => dst
  | fuel + 1, j, jc, iang, dst =>
    if j < ipph then
      let ia := wrap (iang + l)
      let war := csarr (2 * ia)
      let wai := csarr (2 * ia + 1)
      let dst2 := iterRange 0 idl1 1 (fun ik dst =>
        let dst := upd dst (ik + idl1 * l)
          (dst (ik + idl1 * l) + war * src (ik + idl1 * j))
        upd dst (ik + idl1 * lc)
          (dst (ik + idl1 * lc) + wai * src (ik + idl1 * jc))) dst
      radg_scan_single wrap csarr idl1 l lc ipph src fuel (j + 1) (jc - 1) ia dst2
    else dst

/-- Two-column part of the radfg and radbg scan (loop
for (; j < ipph - 1; j += 2, jc -= 2)), falling through to the single
column tail. -/
def radg_scan_pair (wrap : ℕ → ℕ) (csarr : ℕ → ℚ) (idl1 l lc ipph : ℕ)
    (src : BufR) : ℕ → ℕ → ℕ → ℕ → BufR → BufR
  | 0, _, _, _, dst => dst
  | fuel + 1, j, jc, iang, dst =>
    if j < ipph - 1 then
      let ia1 := wrap (iang + l)
      let ar1 := csarr (2 * ia1)
      let ai1 := csarr (2 * ia1 + 1)
      let ia2 := wrap (ia1 + l)
      let ar2 := csarr (2 * ia2)
      let ai2 := csarr (2 * ia2 + 1)
      let dst2 := iterRange 0 idl1 1 (fun ik dst =>
        let dst := upd dst (ik + idl1 * l)
          (dst (ik + idl1 * l) + ar1 * src (ik + idl1 * j) +
            ar2 * src (ik + idl1 * (j + 1)))
        upd dst (ik + idl1 * lc)
          (dst (ik + idl1 * lc) + ai1 * src (ik + idl1 * jc) +
            ai2 * src (ik + idl1 * (jc - 1)))) dst
      radg_scan_pair wrap csarr idl1 l lc ipph src fuel (j + 2) (jc - 2) ia2 dst2
    else radg_scan_single wrap csarr idl1 l lc ipph src (fuel + 1) j jc iang dst

/-- Four-column part of the radfg and radbg scan (loop
for (; j < ipph - 3; j += 4, jc -= 4)), falling through to the two-column
part. -/
def radg_scan_quad (wrap : ℕ → ℕ) (csarr : ℕ → ℚ) (idl1 l lc ipph : ℕ)
    (src : BufR) : ℕ → ℕ → ℕ → ℕ → BufR → BufR
  | 0, _, _, _, dst => dst
  | fuel + 1, j, jc, iang, dst =>
    if j < ipph - 3 then
      let ia1 := wrap (iang + l)
      let ar1 := csarr (2 * ia1)
      let ai1 := csarr (2 * ia1 + 1)
      let ia2 := wrap (ia1 + l)
      let ar2 := csarr (2 * ia2)
      let ai2 := csarr (2 * ia2 + 1)
      let ia3 := wrap (ia2 + l)
      let ar3 := csarr (2 * ia3)
      let ai3 := csarr (2 * ia3 + 1)
      let ia4 := wrap (ia3 + l)
      let ar4 := csarr (2 * ia4)
      let ai4 := csarr (2 * ia4 + 1)
      let dst2 := iterRange 0 idl1 1 (fun ik dst =>
        let dst := upd dst (ik + idl1 * l)
          (dst (ik + idl1 * l) + ar1 * src (ik + idl1 * j) +
            ar2 * src (ik + idl1 * (j + 1)) +
            ar3 * src (ik + idl1 * (j + 2)) +
            ar4 * src (ik + idl1 * (j + 3)))
        upd dst (ik + idl1 * lc)
          (dst (ik + idl1 * lc) + ai1 * src (ik + idl1 * jc) +
            ai2 * src (ik + idl1 * (jc - 1)) +
            ai3 * src (ik + idl1 * (jc - 2)) +
            ai4 * src (ik + idl1 * (jc - 3)))) dst
      radg_scan_quad wrap csarr idl1 l lc ipph src fuel (j + 4) (jc - 4) ia4 dst2
    else radg_scan_pair wrap csarr idl1 l lc ipph src (fuel + 1) j jc iang dst

/-- Accumulation phase over l = 1 .. ipph-1 shared by radfg and radbg:
initial two-column combination followed by the wrapped root-of-unity scan,
reading src and accumulating into dst. -/
def radg_phase (wrap : ℕ → ℕ) (csarr : ℕ → ℚ) (ip ipph idl1 : ℕ)
    (src : BufR) (dst : BufR) : BufR :=
  iterRange 1 (ipph - 1) 1 (fun l dst =>
    let lc := ip - l
    let dst := iterRange 0 idl1 1 (fun ik dst =>
      let dst := upd dst (ik + idl1 * l)
        (src (ik + idl1 * 0) + csarr (2 * l) * src (ik + idl1 * 1) +
          csarr (4 * l) * src (ik + idl1 * 2))
      upd dst (ik + idl1 * lc)
        (csarr (2 * l + 1) * src (ik + idl1 * (ip - 1)) +
          csarr (4 * l + 1) * src (ik + idl1 * (ip - 2)))) dst
    radg_scan_quad wrap csarr idl1 l lc ipph src ipph 3 (ip - 3) (2 * l) dst) dst

/-- Generic real forward butterfly radfg of rfftp; note its scan uses the
inclusive wrap test (iang >= ip, wrapGe).  Mutates both buffers and leaves
the result in cc; returns (cc, ch). -/
def radfg (ido ip l1 : ℕ) (cc ch : BufR) (wa csarr : ℕ → ℚ) : BufR × BufR :=
  let cdim := ip
  let ipph := (ip + 1) / 2
  let idl1 := ido * l1
  let c1I := fun (a b c : ℕ) => a + ido * (b + l1 * c)
  let ccI := fun (a b c : ℕ) => a + ido * (b + cdim * c)
  let chI := fun (a b c : ℕ) => a + ido * (b + l1 * c)
  let cc := if 1 < ido then
    iterRange 1 (ipph - 1) 1 (fun j cc =>
      let jc := ip - j
      let is := (j - 1) * (ido - 1)
      let is2 := (jc - 1) * (ido - 1)
      iterRange 0 l1 1 (fun k cc =>
        iterRange 1 ((ido - 1) / 2) 2 (fun i cc =>
          let idij := is + (i - 1)
          let idij2 := is2 + (i - 1)
          let t1 := cc (c1I i k j)
          let t2 := cc (c1I (i + 1) k j)
          let t3 := cc (c1I i k jc)
          let t4 := cc (c1I (i + 1) k jc)
          let x1 := wa idij * t1 + wa (idij + 1) * t2
          let x2 := wa idij * t2 - wa (idij + 1) * t1
          let x3 := wa idij2 * t3 + wa (idij2 + 1) * t4
          let x4 := wa idij2 * t4 - wa (idij2 + 1) * t3
          let cc := upd cc (c1I i k j) (x1 + x3)
          let cc := upd cc (c1I i k jc) (x2 - x4)
          let cc := upd cc (c1I (i + 1) k j) (x2 + x4)
          upd cc (c1I (i + 1) k jc) (x3 - x1)) cc) cc) cc
    else cc
  let cc := iterRange 1 (ipph - 1) 1 (fun j cc =>
    let jc := ip - j
    iterRange 0 l1 1 (fun k cc =>
      let t1 := cc (c1I 0 k j)
      let t2 := cc (c1I 0 k jc)
      let cc := upd cc (c1I 0 k j) (t1 + t2)
      upd cc (c1I 0 k jc) (t2 - t1)) cc) cc
  let ch := radg_phase (wrapGe ip) csarr ip ipph idl1 cc ch
  let ch := iterRange 0 idl1 1 (fun ik ch => upd ch ik (cc ik)) ch
  let ch := iterRange 1 (ipph - 1) 1 (fun j ch =>
    iterRange 0 idl1 1 (fun ik ch => upd ch ik (ch ik + cc (ik + idl1 * j))) ch) ch
  let cc := iterRange 0 l1 1 (fun k cc =>
    iterRange 0 ido 1 (fun i cc =>
      upd cc (ccI i 0 k) (ch (chI i k 0))) cc) cc
  let cc := iterRange 1 (ipph - 1) 1 (fun j cc =>
    let jc := ip - j
    let j2 := 2 * j - 1
    iterRange 0 l1 1 (fun k cc =>
      let cc := upd cc (ccI (ido - 1) j2 k) (ch (chI 0 k j))
      upd cc (ccI 0 (j2 + 1) k) (ch (chI 0 k jc))) cc) cc
  if ido = 1 then (cc, ch)
  else
    let cc := iterRange 1 (ipph - 1) 1 (fun j cc =>
      let jc := ip - j
      let j2 := 2 * j - 1
      iterRange 0 l1 1 (fun k cc =>
        iterRange 1 ((ido - 1) / 2) 2 (fun i cc =>
          let ic := ido - i - 2
          let cc := upd cc (ccI i (j2 + 1) k) (ch (chI i k j) + ch (chI i k jc))
          let cc := upd cc (ccI ic j2 k) (ch (chI i k j) - ch (chI i k jc))
          let cc := upd cc (ccI (i + 1) (j2 + 1) k)
            (ch (chI (i + 1) k j) + ch (chI (i + 1) k jc))
          upd cc (ccI (ic + 1) j2 k)
            (ch (chI (i + 1) k jc) - ch (chI (i + 1) k j))) cc) cc) cc
    (cc, ch)

/-- Real backward butterfly radb2 of rfftp. -/
def radb2 (ido l1 : ℕ) (cc ch : BufR) (wa : ℕ → ℚ) : BufR :=
  let cdim := 2
  let ccI := fun (a b c : ℕ) => a + ido * (b + cdim * c)
  let chI := fun (a b c : ℕ) => a + ido * (b + l1 * c)
  let waI := fun (x i : ℕ) => wa (i + x * (ido - 1))
  let ch := iterRange 0 l1 1 (fun k ch =>
    let ch := upd ch (chI 0 k 0) (cc (ccI 0 0 k) + cc (ccI (ido - 1) 1 k))
    upd ch (chI 0 k 1) (cc (ccI 0 0 k) - cc (ccI (ido - 1) 1 k))) ch
  let ch := if ido % 2 = 0 then
    iterRange 0 l1 1 (fun k ch =>
      let ch := upd ch (chI (ido - 1) k 0) (2 * cc (ccI (ido - 1) 0 k))
      upd ch (chI (ido - 1) k 1) (-(2 * cc (ccI 0 1 k)))) ch
    else ch
  if ido ≤ 2 then ch
  else
    iterRange 0 l1 1 (fun k ch =>
      iterRange 2 ((ido - 1) / 2) 2 (fun i ch =>
        let ic := ido - i
        let ch := upd ch (chI (i - 1) k 0)
          (cc (ccI (i - 1) 0 k) + cc (ccI (ic - 1) 1 k))
        let tr2 := cc (ccI (i - 1) 0 k) - cc (ccI (ic - 1) 1 k)
        let ti2 := cc (ccI i 0 k) + cc (ccI ic 1 k)
        let ch := upd ch (chI i k 0) (cc (ccI i 0 k) - cc (ccI ic 1 k))
        let ch := upd ch (chI i k 1)
          (waI 0 (i - 2) * ti2 + waI 0 (i - 1) * tr2)
        upd ch (chI (i - 1) k 1)
          (waI 0 (i - 2) * tr2 - waI 0 (i - 1) * ti2)) ch) ch

/-- Real backward butterfly radb3 of rfftp. -/
def radb3 (ido l1 : ℕ) (cc ch : BufR) (wa : ℕ → ℚ) : BufR :=
  let cdim := 3
  let taur : ℚ := -0.5
  let taui : ℚ := 0.86602540378443864676
  let ccI := fun (a b c : ℕ) => a + ido * (b + cdim * c)
  let chI := fun (a b c : ℕ) => a + ido * (b + l1 * c)
  let waI := fun (x i : ℕ) => wa (i + x * (ido - 1))
  let ch := iterRange 0 l1 1 (fun k ch =>
    let tr2 := 2 * cc (ccI (ido - 1) 1 k)
    let cr2 := cc (ccI 0 0 k) + taur * tr2
    let ch := upd ch (chI 0 k 0) (cc (ccI 0 0 k) + tr2)
    let ci3 := 2 * taui * cc (ccI 0 2 k)
    let ch := upd ch (chI 0 k 2) (cr2 + ci3)
    upd ch (chI 0 k 1) (cr2 - ci3)) ch
  if ido = 1 then ch
  else
    iterRange 0 l1 1 (fun k ch =>
      iterRange 2 ((ido - 1) / 2) 2 (fun i ch =>
        let ic := ido - i
        let tr2 := cc (ccI (i - 1) 2 k) + cc (ccI (ic - 1) 1 k)
        let ti2 := cc (ccI i 2 k) - cc (ccI ic 1 k)
        let cr2 := cc (ccI (i - 1) 0 k) + taur * tr2
        let ci2 := cc (ccI i 0 k) + taur * ti2
        let ch := upd ch (chI (i - 1) k 0) (cc (ccI (i - 1) 0 k) + tr2)
        let ch := upd ch (chI i k 0) (cc (ccI i 0 k) + ti2)
        let cr3 := taui * (cc (ccI (i - 1) 2 k) - cc (ccI (ic - 1) 1 k))
        let ci3 := taui * (cc (ccI i 2 k) + cc (ccI ic 1 k))
        let dr3 := cr2 + ci3
        let dr2 := cr2 - ci3
        let di2 := ci2 + cr3
        let di3 := ci2 - cr3
        let ch := upd ch (chI i k 1)
          (waI 0 (i - 2) * di2 + waI 0 (i - 1) * dr2)
        let ch := upd ch (chI (i - 1) k 1)
          (waI 0 (i - 2) * dr2 - waI 0 (i - 1) * di2)
        let ch := upd ch (chI i k 2)
          (waI 1 (i - 2) * di3 + waI 1 (i - 1) * dr3)
        upd ch (chI (i - 1) k 2)
          (waI 1 (i - 2) * dr3 - waI 1 (i - 1) * di3)) ch) ch

/-- Real backward butterfly radb4 of rfftp. -/
def radb4 (ido l1 : ℕ) (cc ch : BufR) (wa : ℕ → ℚ) : BufR :=
  let cdim := 4
  let sqrt2 : ℚ := 1.41421356237309504880
  let ccI := fun (a b c : ℕ) => a + ido * (b + cdim * c)
  let chI := fun (a b c : ℕ) => a + ido * (b + l1 * c)
  let waI := fun (x i : ℕ) => wa (i + x * (ido - 1))
  let ch := iterRange 0 l1 1 (fun k ch =>
    let tr2 := cc (ccI 0 0 k) + cc (ccI (ido - 1) 3 k)
    let tr1 := cc (ccI 0 0 k) - cc (ccI (ido - 1) 3 k)
    let tr3 := 2 * cc (ccI (ido - 1) 1 k)
    let tr4 := 2 * cc (ccI 0 2 k)
    let ch := upd ch (chI 0 k 0) (tr2 + tr3)
    let ch := upd ch (chI 0 k 2) (tr2 - tr3)
    let ch := upd ch (chI 0 k 3) (tr1 + tr4)
    upd ch (chI 0 k 1) (tr1 - tr4)) ch
  let ch := if ido % 2 = 0 then
    iterRange 0 l1 1 (fun k ch =>
      let ti1 := cc (ccI 0 3 k) + cc (ccI 0 1 k)
      let ti2 := cc (ccI 0 3 k) - cc (ccI 0 1 k)
      let tr2 := cc (ccI (ido - 1) 0 k) + cc (ccI (ido - 1) 2 k)
      let tr1 := cc (ccI (ido - 1) 0 k) - cc (ccI (ido - 1) 2 k)
      let ch := upd ch (chI (ido - 1) k 0) (tr2 + tr2)
      let ch := upd ch (chI (ido - 1) k 1) (sqrt2 * (tr1 - ti1))
      let ch := upd ch (chI (ido - 1) k 2) (ti2 + ti2)
      upd ch (chI (ido - 1) k 3) (-(sqrt2 * (tr1 + ti1)))) ch
    else ch
  if ido ≤ 2 then ch
  else
    iterRange 0 l1 1 (fun k ch =>
      iterRange 2 ((ido - 1) / 2) 2 (fun i ch =>
        let ic := ido - i
        let tr2 := cc (ccI (i - 1) 0 k) + cc (ccI (ic - 1) 3 k)
        let tr1 := cc (ccI (i - 1) 0 k) - cc (ccI (ic - 1) 3 k)
        let ti1 := cc (ccI i 0 k) + cc (ccI ic 3 k)
        let ti2 := cc (ccI i 0 k) - cc (ccI ic 3 k)
        let tr4 := cc (ccI i 2 k) + cc (ccI ic 1 k)
        let ti3 := cc (ccI i 2 k) - cc (ccI ic 1 k)
        let tr3 := cc (ccI (i - 1) 2 k) + cc (ccI (ic - 1) 1 k)
        let ti4 := cc (ccI (i - 1) 2 k) - cc (ccI (ic - 1) 1 k)
        let ch := upd ch (chI (i - 1) k 0) (tr2 + tr3)
        let cr3 := tr2 - tr3
        let ch := upd ch (chI i k 0) (ti2 + ti3)
        let ci3 := ti2 - ti3
        let cr4 := tr1 + tr4
        let cr2 := tr1 - tr4
        let ci2 := ti1 + ti4
        let ci4 := ti1 - ti4
        let ch := upd ch (chI i k 1)
          (waI 0 (i - 2) * ci2 + waI 0 (i - 1) * cr2)
        let ch := upd ch (chI (i - 1) k 1)
          (waI 0 (i - 2) * cr2 - waI 0 (i - 1) * ci2)
        let ch := upd ch (chI i k 2)
          (waI 1 (i - 2) * ci3 + waI 1 (i - 1) * cr3)
        let ch := upd ch (chI (i - 1) k 2)
          (waI 1 (i - 2) * cr3 - waI 1 (i - 1) * ci3)
        let ch := upd ch (chI i k 3)
          (waI 2 (i - 2) * ci4 + waI 2 (i - 1) * cr4)
        upd ch (chI (i - 1) k 3)
          (waI 2 (i - 2) * cr4 - waI 2 (i - 1) * ci4)) ch) ch

/-- Real backward butterfly radb5 of rfftp. -/
def radb5 (ido l1 : ℕ) (cc ch : BufR) (wa : ℕ → ℚ) : BufR :=
  let cdim := 5
  let tr11 : ℚ := 0.3090169943749474241
  let ti11 : ℚ := 0.95105651629515357212
  let tr12 : ℚ := -0.8090169943749474241
  let ti12 : ℚ := 0.58778525229247312917
  let ccI := fun (a b c : ℕ) => a + ido * (b + cdim * c)
  let chI := fun (a b c : ℕ) => a + ido * (b + l1 * c)
  let waI := fun (x i : ℕ) => wa (i + x * (ido - 1))
  let ch := iterRange 0 l1 1 (fun k ch =>
    let ti5 := cc (ccI 0 2 k) + cc (ccI 0 2 k)
    let ti4 := cc (ccI 0 4 k) + cc (ccI 0 4 k)
    let tr2 := cc (ccI (ido - 1) 1 k) + cc (ccI (ido - 1) 1 k)
    let tr3 := cc (ccI (ido - 1) 3 k) + cc (ccI (ido - 1) 3 k)
    let ch := upd ch (chI 0 k 0) (cc (ccI 0 0 k) + tr2 + tr3)
    let cr2 := cc (ccI 0 0 k) + tr11 * tr2 + tr12 * tr3
    let cr3 := cc (ccI 0 0 k) + tr12 * tr2 + tr11 * tr3
    let ci5 := ti5 * ti11 + ti4 * ti12
    let ci4 := ti5 * ti12 - ti4 * ti11
    let ch := upd ch (chI 0 k 4) (cr2 + ci5)
    let ch := upd ch (chI 0 k 1) (cr2 - ci5)
    let ch := upd ch (chI 0 k 3) (cr3 + ci4)
    upd ch (chI 0 k 2) (cr3 - ci4)) ch
  if ido = 1 then ch
  else
    iterRange 0 l1 1 (fun k ch =>
      iterRange 2 ((ido - 1) / 2) 2 (fun i ch =>
        let ic := ido - i
        let tr2 := cc (ccI (i - 1) 2 k) + cc (ccI (ic - 1) 1 k)
        let tr5 := cc (ccI (i - 1) 2 k) - cc (ccI (ic - 1) 1 k)
        let ti5 := cc (ccI i 2 k) + cc (ccI ic 1 k)
        let ti2 := cc (ccI i 2 k) - cc (ccI ic 1 k)
        let tr3 := cc (ccI (i - 1) 4 k) + cc (ccI (ic - 1) 3 k)
        let tr4 := cc (ccI (i - 1) 4 k) - cc (ccI (ic - 1) 3 k)
        let ti4 := cc (ccI i 4 k) + cc (ccI ic 3 k)
        let ti3 := cc (ccI i 4 k) - cc (ccI ic 3 k)
        let ch := upd ch (chI (i - 1) k 0) (cc (ccI (i - 1) 0 k) + tr2 + tr3)
        let ch := upd ch (chI i k 0) (cc (ccI i 0 k) + ti2 + ti3)
        let cr2 := cc (ccI (i - 1) 0 k) + tr11 * tr2 + tr12 * tr3
        let ci2 := cc (ccI i 0 k) + tr11 * ti2 + tr12 * ti3
        let cr3 := cc (ccI (i - 1) 0 k) + tr12 * tr2 + tr11 * tr3
        let ci3 := cc (ccI i 0 k) + tr12 * ti2 + tr11 * ti3
        let cr5 := tr5 * ti11 + tr4 * ti12
        let cr4 := tr5 * ti12 - tr4 * ti11
        let ci5 := ti5 * ti11 + ti4 * ti12
        let ci4 := ti5 * ti12 - ti4 * ti11
        let dr4 := cr3 + ci4
        let dr3 := cr3 - ci4
        let di3 := ci3 + cr4
        let di4 := ci3 - cr4
        let dr5 := cr2 + ci5
        let dr2 := cr2 - ci5
        let di2 := ci2 + cr5
        let di5 := ci2 - cr5
        let ch := upd ch (chI i k 1)
          (waI 0 (i - 2) * di2 + waI 0 (i - 1) * dr2)
        let ch := upd ch (chI (i - 1) k 1)
          (waI 0 (i - 2) * dr2 - waI 0 (i - 1) * di2)
        let ch := upd ch (chI i k 2)
          (waI 1 (i - 2) * di3 + waI 1 (i - 1) * dr3)
        let ch := upd ch (chI (i - 1) k 2)
          (waI 1 (i - 2) * dr3 - waI 1 (i - 1) * di3)
        let ch := upd ch (chI i k 3)
          (waI 2 (i - 2) * di4 + waI 2 (i - 1) * dr4)
        let ch := upd ch (chI (i - 1) k 3)
          (waI 2 (i - 2) * dr4 - waI 2 (i - 1) * di4)
        let ch := upd ch (chI i k 4)
          (waI 3 (i - 2) * di5 + waI 3 (i - 1) * dr5)
        upd ch (chI (i - 1) k 4)
          (waI 3 (i - 2) * dr5 - waI 3 (i - 1) * di5)) ch) ch

/-- Generic real backward butterfly radbg of rfftp, parameterized by the
index wrap used in its scan (the source uses the strict test, wrapGt ip).
Mutates both buffers and leaves the result in ch; returns (cc, ch). -/
def radbg_core (wrap : ℕ → ℕ) (ido ip l1 : ℕ) (cc ch : BufR)
    (wa csarr : ℕ → ℚ) : BufR × BufR :=
  let cdim := ip
  let ipph := (ip + 1) / 2
  let idl1 := ido * l1
  let ccI := fun (a b c : ℕ) => a + ido * (b + cdim * c)
  let chI := fun (a b c : ℕ) => a + ido * (b + l1 * c)
  let c1I := fun (a b c : ℕ) => a + ido * (b + l1 * c)
  let ch := iterRange 0 l1 1 (fun k ch =>
    iterRange 0 ido 1 (fun i ch => upd ch (chI i k 0) (cc (ccI i 0 k))) ch) ch
  let ch := iterRange 1 (ipph - 1) 1 (fun j ch =>
    let jc := ip - j
    let j2 := 2 * j - 1
    iterRange 0 l1 1 (fun k ch =>
      let ch := upd ch (chI 0 k j) (2 * cc (ccI (ido - 1) j2 k))
      upd ch (chI 0 k jc) (2 * cc (ccI 0 (j2 + 1) k))) ch) ch
  let ch := if ido ≠ 1 then
    iterRange 1 (ipph - 1) 1 (fun j ch =>
      let jc := ip - j
      let j2 := 2 * j - 1
      iterRange 0 l1 1 (fun k ch =>
        iterRange 1 ((ido - 1) / 2) 2 (fun i ch =>
          let ic := ido - i - 2
          let ch := upd ch (chI i k j)
            (cc (ccI i (j2 + 1) k) + cc (ccI ic j2 k))
          let ch := upd ch (chI i k jc)
            (cc (ccI i (j2 + 1) k) - cc (ccI ic j2 k))
          let ch := upd ch (chI (i + 1) k j)
            (cc (ccI (i + 1) (j2 + 1) k) - cc (ccI (ic + 1) j2 k))
          upd ch (chI (i + 1) k jc)
            (cc (ccI (i + 1) (j2 + 1) k) + cc (ccI (ic + 1) j2 k))) ch) ch) ch
    else ch
  let cc := radg_phase wrap csarr ip ipph idl1 ch cc
  let ch := iterRange 1 (ipph - 1) 1 (fun j ch =>
    iterRange 0 idl1 1 (fun ik ch => upd ch ik (ch ik + ch (ik + idl1 * j))) ch) ch
  let ch := iterRange 1 (ipph - 1) 1 (fun j ch =>
    let jc := ip - j
    iterRange 0 l1 1 (fun k ch =>
      let ch := upd ch (chI 0 k j) (cc (c1I 0 k j) - cc (c1I 0 k jc))
      upd ch (chI 0 k jc) (cc (c1I 0 k j) + cc (c1I 0 k jc))) ch) ch
  if ido = 1 then (cc, ch)
  else
    let ch := iterRange 1 (ipph - 1) 1 (fun j ch =>
      let jc := ip - j
      iterRange 0 l1 1 (fun k ch =>
        iterRange 1 ((ido - 1) / 2) 2 (fun i ch =>
          let ch := upd ch (chI i k j)
            (cc (c1I i k j) - cc (c1I (i + 1) k jc))
          let ch := upd ch (chI i k jc)
            (cc (c1I i k j) + cc (c1I (i + 1) k jc))
          let ch := upd ch (chI (i + 1) k j)
            (cc (c1I (i + 1) k j) + cc (c1I i k jc))
          upd ch (chI (i + 1) k jc)
            (cc (c1I (i + 1) k j) - cc (c1I i k jc))) ch) ch) ch
    let ch := iterRange 1 (ip - 1) 1 (fun j ch =>
      let is := (j - 1) * (ido - 1)
      iterRange 0 l1 1 (fun k ch =>
        iterRange 1 ((ido - 1) / 2) 2 (fun i ch =>
          let idij := is + (i - 1)
          let t1 := ch (chI i k j)
          let t2 := ch (chI (i + 1) k j)
          let ch := upd ch (chI i k j) (wa idij * t1 - wa (idij + 1) * t2)
          upd ch (chI (i + 1) k j) (wa idij * t2 + wa (idij + 1) * t1)) ch) ch) ch
    (cc, ch)

/-- Generic real backward butterfly radbg as in the source: wrap test
iang > ip. -/
def radbg (ido ip l1 : ℕ) (cc ch : BufR) (wa csarr : ℕ → ℚ) : BufR × BufR :=
  radbg_core (wrapGt ip) ido ip l1 cc ch wa csarr

/-- Variant of radbg with the wrap test iang >= ip (matching radfg),
modelled from the spec for the refinement comparison of claim C9. -/
def radbg_ge (ido ip l1 : ℕ) (cc ch : BufR) (wa csarr : ℕ → ℚ) : BufR × BufR :=
  radbg_core (wrapGe ip) ido ip l1 cc ch wa csarr

/-- Factor record of rfftp: the factor together with its twiddle table tw
and (for generic radices) the auxiliary table tws. -/
structure RFct where
  fct : ℕ
  tw : ℕ → ℚ
  tws : ℕ → ℚ

/-- copy_and_norm of rfftp: copy the working buffer back to the caller's
buffer, applying the scale factor in the same pass; p1IsC records whether
p1 already is the caller's storage (pointer comparison p1 != c in the
source), and cbuf is the current content of the caller's storage. -/
def copy_and_norm (p1IsC : Bool) (cbuf p1 : BufR) (n : ℕ) (fct : ℚ) : BufR :=
  if p1IsC = false then
    (if fct ≠ 1 then fun i => if i < n then fct * p1 i else cbuf i
     else fun i => if i < n then p1 i else cbuf i)
  else
    (if fct ≠ 1 then fun i => if i < n then p1 i * fct else p1 i
     else p1)

/-- Forward real transform driver of rfftp: run one radf stage per factor
in reverse factor order (l1 descending from n), toggling between the
caller buffer and the scratch buffer (radfg leaves its result in cc and
hence does not toggle), then copy and normalize. -/
def rfftp_forward (length : ℕ) (fcts : List RFct) (c : BufR) (fact : ℚ) :
    BufR :=
  if length = 1 then upd c 0 (c 0 * fact)
  else
    let n := length
    let st := fcts.reverse.foldl (fun (st : BufR × BufR × Bool × ℕ) f =>
      let p1 := st.1
      let p2 := st.2.1
      let p1IsC := st.2.2.1
      let l1 := st.2.2.2
      let ip := f.fct
      let ido := n / l1
      let l1n := l1 / ip
      if ip = 4 then (radf4 ido l1n p1 p2 f.tw, p1, !p1IsC, l1n)
      else if ip = 2 then (radf2 ido l1n p1 p2 f.tw, p1, !p1IsC, l1n)
      else if ip = 3 then (radf3 ido l1n p1 p2 f.tw, p1, !p1IsC, l1n)
      else if ip = 5 then (radf5 ido l1n p1 p2 f.tw, p1, !p1IsC, l1n)
      else
        let pr := radfg ido ip l1n p1 p2 f.tw f.tws
        (pr.1, pr.2, p1IsC, l1n))
      (c, (fun _ => (0 : ℚ)), true, n)
    let p1 := st.1
    let p2 := st.2.1
    let p1IsC := st.2.2.1
    copy_and_norm p1IsC (if p1IsC then p1 else p2) p1 n fact

/-- Backward real transform driver of rfftp: run one radb stage per factor
in factor order (l1 ascending from 1), toggling between the caller buffer
and the scratch buffer after every stage (radbg leaves its result in ch),
then copy and normalize. -/
def rfftp_backward (length : ℕ) (fcts : List RFct) (c : BufR) (fact : ℚ) :
    BufR :=
  if length = 1 then upd c 0 (c 0 * fact)
  else
    let n := length
    let st := fcts.foldl (fun (st : BufR × BufR × Bool × ℕ) f =>
      let p1 := st.1
      let p2 := st.2.1
      let p1IsC := st.2.2.1
      let l1 := st.2.2.2
      let ip := f.fct
      let ido := n / (ip * l1)
      if ip = 4 then (radb4 ido l1 p1 p2 f.tw, p1, !p1IsC, ip * l1)
      else if ip = 2 then (radb2 ido l1 p1 p2 f.tw, p1, !p1IsC, ip * l1)
      else if ip = 3 then (radb3 ido l1 p1 p2 f.tw, p1, !p1IsC, ip * l1)
      else if ip = 5 then (radb5 ido l1 p1 p2 f.tw, p1, !p1IsC, ip * l1)
      else
        let pr := radbg ido ip l1 p1 p2 f.tw f.tws
        (pr.2, pr.1, !p1IsC, ip * l1))
      (c, (fun _ => (0 : ℚ)), true, 1)
    let p1 := st.1
    let p2 := st.2.1
    let p1IsC := st.2.2.1
    copy_and_norm p1IsC (if p1IsC then p1 else p2) p1 n fact

/-- Successive wrapped root-of-unity indices produced by the single-column
scan loops of passg, radfg and radbg. -/
def scanTraceSingle (wrap : ℕ → ℕ) (l ipph : ℕ) : ℕ → ℕ → ℕ → List ℕ
  | 0, _, _ => []
  | fuel + 1, j, iwal =>
    if j < ipph then
      let i2 := wrap (iwal + l)
      i2 :: scanTraceSingle wrap l ipph fuel (j + 1) i2
    else []

/-- Successive wrapped root-of-unity indices produced by the two-column
scan loops, falling through to the single-column tail. -/
def scanTracePair (wrap : ℕ → ℕ) (l ipph : ℕ) : ℕ → ℕ → ℕ → List ℕ
  | 0, _, _ => []
  | fuel + 1, j, iwal =>
    if j < ipph - 1 then
      let i1 := wrap (iwal + l)
      let i2 := wrap (i1 + l)
      i1 :: i2 :: scanTracePair wrap l ipph fuel (j + 2) i2
    else scanTraceSingle wrap l ipph (fuel + 1) j iwal

/-- Successive wrapped root-of-unity indices produced by the four-column
scan loops of radfg and radbg, falling through to the two-column part. -/
def scanTraceQuad (wrap : ℕ → ℕ) (l ipph : ℕ) : ℕ → ℕ → ℕ → List ℕ
  | 0, _, _ => []
  | fuel + 1, j, iwal =>
    if j < ipph - 3 then
      let i1 := wrap (iwal + l)
      let i2 := wrap (i1 + l)
      let i3 := wrap (i2 + l)
      let i4 := wrap (i3 + l)
      i1 :: i2 :: i3 :: i4 :: scanTraceQuad wrap l ipph fuel (j + 4) i4
    else scanTracePair wrap l ipph (fuel + 1) j iwal

/-- Indices of the bkf slots written by the fftblue constructor: the two
direct slots for m = 0, the paired direct and mirrored slots for
m = 2, 4, .., 2n-2, and the zero-padding slots m = 2n .. 2*n2-2*n+1. -/
def bkfWrites (n n2 : ℕ) : List ℕ :=
  [0, 1]
  ++ (List.range' 2 (n - 1) 2).flatMap
      (fun m => [m, 2 * n2 - m, m + 1, 2 * n2 - m + 1])
  ++ List.range' (2 * n) (2 * n2 - 2 * n + 1 + 1 - 2 * n) 1

theorem isqrtDown_sq_le (n : ℕ) : ∀ k, isqrtDown n k * isqrtDown n k ≤ n := by
  intro k
  induction k with
  | zero => simpa [isqrtDown] using Nat.zero_le n
  | succ k ih =>
    rw [isqrtDown]
    by_cases h : (k + 1) * (k + 1) ≤ n
    · simpa [h] using h
    · simpa [h] using ih

theorem le_isqrtDown (n : ℕ) : ∀ k j, j ≤ k → j * j ≤ n → j ≤ isqrtDown n k := by
  intro k
  induction k with
  | zero => intro j hj _; omega
  | succ k ih =>
    intro j hj hsq
    rw [isqrtDown]
    by_cases h : (k + 1) * (k + 1) ≤ n
    · simpa [h] using hj
    · have hjk : j ≤ k := by
        rcases Nat.lt_or_ge j (k + 1) with h1 | h1
        · omega
        · exact absurd (Nat.le_trans (Nat.mul_le_mul h1 h1) hsq) h
      simpa [h] using ih j hjk hsq

theorem le_isqrt_iff (n x : ℕ) : x ≤ isqrt n ↔ x * x ≤ n := by
  constructor
  · intro h
    exact Nat.le_trans (Nat.mul_le_mul h h) (isqrtDown_sq_le n n)
  · intro h
    have hxn : x ≤ n := by
      rcases Nat.eq_zero_or_pos x with h0 | h0
      · omega
      · calc x = x * 1 := (Nat.mul_one x).symm
          _ ≤ x * x := Nat.mul_le_mul_left x h0
          _ ≤ n := h
    exact le_isqrtDown n n x hxn h

theorem isqrt_lt_iff (n x : ℕ) : isqrt n < x ↔ n < x * x := by
  rcases Nat.lt_or_ge (isqrt n) x with h | h
  · have : ¬ x ≤ isqrt n := by omega
    rw [le_isqrt_iff] at this
    constructor <;> intro <;> omega
  · have : x * x ≤ n := (le_isqrt_iff n x).1 h
    constructor <;> intro <;> omega

/-!
Correctness of good_size (claim C3): loop invariants for the nested search.
-/

theorem gsLoop11_spec (n : ℕ) : ∀ fuel f best, 0 < f → best - f < fuel →
    gsLoop11 fuel n f best ≤ best ∧
    (gsLoop11 fuel n f best = best ∨
      (n ≤ gsLoop11 fuel n f best ∧ ∃ e, gsLoop11 fuel n f best = f * 11 ^ e)) ∧
    (∀ e, n ≤ f * 11 ^ e → gsLoop11 fuel n f best ≤ f * 11 ^ e) := by
  intro fuel
  induction fuel with
  | zero => intro f best _ hfu; omega
  | succ fuel ih =>
    intro f best hf hfu
    rw [gsLoop11]
    by_cases hlt : f < best
    · rw [if_pos hlt]
      set best2 := if n ≤ f then f else best with hbest2
      have hb2le : best2 ≤ best := by rw [hbest2]; split <;> omega
      have hrec := ih (f * 11) best2 (by positivity) (by omega)
      obtain ⟨r1, r2, r3⟩ := hrec
      refine ⟨le_trans r1 hb2le, ?_, ?_⟩
      · rcases r2 with h | ⟨hn, e, he⟩
        · rw [h, hbest2]
          split
          · right
            constructor
            · omega
            · exact ⟨0, by simpa [hbest2] using h⟩
          · left; rfl
        · right
          refine ⟨hn, e + 1, ?_⟩
          rw [he]; ring
      · intro e hne
        match e with
        | 0 =>
          have hnf : n ≤ f := by simpa using hne
          have : best2 = f := by rw [hbest2]; simp [hnf]
          calc gsLoop11 fuel n (f * 11) best2 ≤ best2 := r1
            _ = f * 11 ^ 0 := by simpa using this
        | e + 1 =>
          have : f * 11 ^ (e + 1) = (f * 11) * 11 ^ e := by ring
          rw [this] at hne ⊢
          exact r3 e hne
    · rw [if_neg hlt]
      refine ⟨le_refl best, Or.inl rfl, ?_⟩
      intro e _
      have hfb : best ≤ f := by omega
      calc best ≤ f := hfb
        _ ≤ f * 11 ^ e := Nat.le_mul_of_pos_right f (by positivity)

theorem gsLoop7_spec (n : ℕ) : ∀ fuel f best, 0 < f → best - f < fuel →
    gsLoop7 fuel n f best ≤ best ∧
    (gsLoop7 fuel n f best = best ∨
      (n ≤ gsLoop7 fuel n f best ∧
        ∃ d e, gsLoop7 fuel n f best = f * 7 ^ d * 11 ^ e)) ∧
    (∀ d e, n ≤ f * 7 ^ d * 11 ^ e → gsLoop7 fuel n f best ≤ f * 7 ^ d * 11 ^ e) := by
  intro fuel
  induction fuel with
  | zero => intro f best _ hfu; omega
  | succ fuel ih =>
    intro f best hf hfu
    rw [gsLoop7]
    by_cases hlt : f < best
    · rw [if_pos hlt]
      obtain ⟨i1, i2, i3⟩ := gsLoop11_spec n (fuel + 1) f best hf hfu
      set best2 := gsLoop11 (fuel + 1) n f best with hbest2
      have hfu2 : best2 - f * 7 < fuel := by clear i2 i3; omega
      have hrec := ih (f * 7) best2 (by positivity) hfu2
      obtain ⟨r1, r2, r3⟩ := hrec
      refine ⟨le_trans r1 i1, ?_, ?_⟩
      · rcases r2 with h | ⟨hn, d, e, he⟩
        · rw [h]
          rcases i2 with h2 | ⟨hn2, e, he2⟩
          · left; exact h2
          · right
            exact ⟨hn2, 0, e, by simpa using he2⟩
        · right
          refine ⟨hn, d + 1, e, ?_⟩
          rw [he]; ring
      · intro d e hne
        match d with
        | 0 =>
          have hne0 : n ≤ f * 11 ^ e := by simpa using hne
          calc gsLoop7 fuel n (f * 7) best2 ≤ best2 := r1
            _ ≤ f * 11 ^ e := i3 e hne0
            _ = f * 7 ^ 0 * 11 ^ e := by ring
        | d + 1 =>
          have : f * 7 ^ (d + 1) * 11 ^ e = (f * 7) * 7 ^ d * 11 ^ e := by ring
          rw [this] at hne ⊢
          exact r3 d e hne
    · rw [if_neg hlt]
      refine ⟨le_refl best, Or.inl rfl, ?_⟩
      intro d e _
      have : f * 7 ^ d * 11 ^ e = f * (7 ^ d * 11 ^ e) := by ring
      rw [this]
      calc best ≤ f := by omega
        _ ≤ f * (7 ^ d * 11 ^ e) := Nat.le_mul_of_pos_right f (by positivity)

theorem gsLoop5_spec (n : ℕ) : ∀ fuel f best, 0 < f → best - f < fuel →
    gsLoop5 fuel n f best ≤ best ∧
    (gsLoop5 fuel n f best = best ∨
      (n ≤ gsLoop5 fuel n f best ∧
        ∃ c d e, gsLoop5 fuel n f best = f * 5 ^ c * 7 ^ d * 11 ^ e)) ∧
    (∀ c d e, n ≤ f * 5 ^ c * 7 ^ d * 11 ^ e →
      gsLoop5 fuel n f best ≤ f * 5 ^ c * 7 ^ d * 11 ^ e) := by
  intro fuel
  induction fuel with
  | zero => intro f best _ hfu; omega
  | succ fuel ih =>
    intro f best hf hfu
    rw [gsLoop5]
    by_cases hlt : f < best
    · rw [if_pos hlt]
      obtain ⟨i1, i2, i3⟩ := gsLoop7_spec n (fuel + 1) f best hf hfu
      set best2 := gsLoop7 (fuel + 1) n f best with hbest2
      have hfu2 : best2 - f * 5 < fuel := by clear i2 i3; omega
      have hrec := ih (f * 5) best2 (by positivity) hfu2
      obtain ⟨r1, r2, r3⟩ := hrec
      refine ⟨le_trans r1 i1, ?_, ?_⟩
      · rcases r2 with h | ⟨hn, c, d, e, he⟩
        · rw [h]
          rcases i2 with h2 | ⟨hn2, d, e, he2⟩
          · left; exact h2
          · right
            exact ⟨hn2, 0, d, e, by simpa using he2⟩
        · right
          refine ⟨hn, c + 1, d, e, ?_⟩
          rw [he]; ring
      · intro c d e hne
        match c with
        | 0 =>
          have hne0 : n ≤ f * 7 ^ d * 11 ^ e := by
            calc n ≤ f * 5 ^ 0 * 7 ^ d * 11 ^ e := hne
              _ = f * 7 ^ d * 11 ^ e := by ring
          calc gsLoop5 fuel n (f * 5) best2 ≤ best2 := r1
            _ ≤ f * 7 ^ d * 11 ^ e := i3 d e hne0
            _ = f * 5 ^ 0 * 7 ^ d * 11 ^ e := by ring
        | c + 1 =>
          have : f * 5 ^ (c + 1) * 7 ^ d * 11 ^ e = (f * 5) * 5 ^ c * 7 ^ d * 11 ^ e := by
            ring
          rw [this] at hne ⊢
          exact r3 c d e hne
    · rw [if_neg hlt]
      refine ⟨le_refl best, Or.inl rfl, ?_⟩
      intro c d e _
      have : f * 5 ^ c * 7 ^ d * 11 ^ e = f * (5 ^ c * 7 ^ d * 11 ^ e) := by ring
      rw [this]
      calc best ≤ f := by omega
        _ ≤ f * (5 ^ c * 7 ^ d * 11 ^ e) := Nat.le_mul_of_pos_right f (by positivity)

theorem gsLoop3_spec (n : ℕ) : ∀ fuel f best, 0 < f → best - f < fuel →
    gsLoop3 fuel n f best ≤ best ∧
    (gsLoop3 fuel n f best = best ∨
      (n ≤ gsLoop3 fuel n f best ∧
        ∃ b c d e, gsLoop3 fuel n f best = f * 3 ^ b * 5 ^ c * 7 ^ d * 11 ^ e)) ∧
    (∀ b c d e, n ≤ f * 3 ^ b * 5 ^ c * 7 ^ d * 11 ^ e →
      gsLoop3 fuel n f best ≤ f * 3 ^ b * 5 ^ c * 7 ^ d * 11 ^ e) := by
  intro fuel
  induction fuel with
  | zero => intro f best _ hfu; omega
  | succ fuel ih =>
    intro f best hf hfu
    rw [gsLoop3]
    by_cases hlt : f < best
    · rw [if_pos hlt]
      obtain ⟨i1, i2, i3⟩ := gsLoop5_spec n (fuel + 1) f best hf hfu
      set best2 := gsLoop5 (fuel + 1) n f best with hbest2
      have hfu2 : best2 - f * 3 < fuel := by clear i2 i3; omega
      have hrec := ih (f * 3) best2 (by positivity) hfu2
      obtain ⟨r1, r2, r3⟩ := hrec
      refine ⟨le_trans r1 i1, ?_, ?_⟩
      · rcases r2 with h | ⟨hn, b, c, d, e, he⟩
        · rw [h]
          rcases i2 with h2 | ⟨hn2, c, d, e, he2⟩
          · left; exact h2
          · right
            exact ⟨hn2, 0, c, d, e, by simpa using he2⟩
        · right
          refine ⟨hn, b + 1, c, d, e, ?_⟩
          rw [he]; ring
      · intro b c d e hne
        match b with
        | 0 =>
          have hne0 : n ≤ f * 5 ^ c * 7 ^ d * 11 ^ e := by
            calc n ≤ f * 3 ^ 0 * 5 ^ c * 7 ^ d * 11 ^ e := hne
              _ = f * 5 ^ c * 7 ^ d * 11 ^ e := by ring
          calc gsLoop3 fuel n (f * 3) best2 ≤ best2 := r1
            _ ≤ f * 5 ^ c * 7 ^ d * 11 ^ e := i3 c d e hne0
            _ = f * 3 ^ 0 * 5 ^ c * 7 ^ d * 11 ^ e := by ring
        | b + 1 =>
          have : f * 3 ^ (b + 1) * 5 ^ c * 7 ^ d * 11 ^ e =
              (f * 3) * 3 ^ b * 5 ^ c * 7 ^ d * 11 ^ e := by ring
          rw [this] at hne ⊢
          exact r3 b c d e hne
    · rw [if_neg hlt]
      refine ⟨le_refl best, Or.inl rfl, ?_⟩
      intro b c d e _
      have : f * 3 ^ b * 5 ^ c * 7 ^ d * 11 ^ e = f * (3 ^ b * 5 ^ c * 7 ^ d * 11 ^ e) := by
        ring
      rw [this]
      calc best ≤ f := by omega
        _ ≤ f * (3 ^ b * 5 ^ c * 7 ^ d * 11 ^ e) := Nat.le_mul_of_pos_right f (by positivity)

theorem gsLoop2_spec (n : ℕ) : ∀ fuel f best, 0 < f → best - f < fuel →
    gsLoop2 fuel n f best ≤ best ∧
    (gsLoop2 fuel n f best = best ∨
      (n ≤ gsLoop2 fuel n f best ∧
        ∃ a b c d e, gsLoop2 fuel n f best = f * 2 ^ a * 3 ^ b * 5 ^ c * 7 ^ d * 11 ^ e)) ∧
    (∀ a b c d e, n ≤ f * 2 ^ a * 3 ^ b * 5 ^ c * 7 ^ d * 11 ^ e →
      gsLoop2 fuel n f best ≤ f * 2 ^ a * 3 ^ b * 5 ^ c * 7 ^ d * 11 ^ e) := by
  intro fuel
  induction fuel with
  | zero => intro f best _ hfu; omega
  | succ fuel ih =>
    intro f best hf hfu
    rw [gsLoop2]
    by_cases hlt : f < best
    · rw [if_pos hlt]
      obtain ⟨i1, i2, i3⟩ := gsLoop3_spec n (fuel + 1) f best hf hfu
      set best2 := gsLoop3 (fuel + 1) n f best with hbest2
      have hfu2 : best2 - f * 2 < fuel := by clear i2 i3; omega
      have hrec := ih (f * 2) best2 (by positivity) hfu2
      obtain ⟨r1, r2, r3⟩ := hrec
      refine ⟨le_trans r1 i1, ?_, ?_⟩
      · rcases r2 with h | ⟨hn, a, b, c, d, e, he⟩
        · rw [h]
          rcases i2 with h2 | ⟨hn2, b, c, d, e, he2⟩
          · left; exact h2
          · right
            exact ⟨hn2, 0, b, c, d, e, by simpa using he2⟩
        · right
          refine ⟨hn, a + 1, b, c, d, e, ?_⟩
          rw [he]; ring
      · intro a b c d e hne
        match a with
        | 0 =>
          have hne0 : n ≤ f * 3 ^ b * 5 ^ c * 7 ^ d * 11 ^ e := by
            calc n ≤ f * 2 ^ 0 * 3 ^ b * 5 ^ c * 7 ^ d * 11 ^ e := hne
              _ = f * 3 ^ b * 5 ^ c * 7 ^ d * 11 ^ e := by ring
          calc gsLoop2 fuel n (f * 2) best2 ≤ best2 := r1
            _ ≤ f * 3 ^ b * 5 ^ c * 7 ^ d * 11 ^ e := i3 b c d e hne0
            _ = f * 2 ^ 0 * 3 ^ b * 5 ^ c * 7 ^ d * 11 ^ e := by ring
        | a + 1 =>
          have : f * 2 ^ (a + 1) * 3 ^ b * 5 ^ c * 7 ^ d * 11 ^ e =
              (f * 2) * 2 ^ a * 3 ^ b * 5 ^ c * 7 ^ d * 11 ^ e := by ring
          rw [this] at hne ⊢
          exact r3 a b c d e hne
    · rw [if_neg hlt]
      refine ⟨le_refl best, Or.inl rfl, ?_⟩
      intro a b c d e _
      have : f * 2 ^ a * 3 ^ b * 5 ^ c * 7 ^ d * 11 ^ e =
          f * (2 ^ a * 3 ^ b * 5 ^ c * 7 ^ d * 11 ^ e) := by ring
      rw [this]
      calc best ≤ f := by omega
        _ ≤ f * (2 ^ a * 3 ^ b * 5 ^ c * 7 ^ d * 11 ^ e) :=
          Nat.le_mul_of_pos_right f (by positivity)

theorem smooth_of_exp (a b c d e : ℕ) :
    ∀ p, p.Prime → p ∣ 2 ^ a * 3 ^ b * 5 ^ c * 7 ^ d * 11 ^ e →
      p ∈ ({2, 3, 5, 7, 11} : Finset ℕ) := by
  intro p hp hd
  simp only [Finset.mem_insert, Finset.mem_singleton]
  have l2 : p ∣ 2 ^ a → p = 2 := fun h =>
    (Nat.prime_dvd_prime_iff_eq hp (by norm_num)).1 (hp.dvd_of_dvd_pow h)
  have l3 : p ∣ 3 ^ b → p = 3 := fun h =>
    (Nat.prime_dvd_prime_iff_eq hp (by norm_num)).1 (hp.dvd_of_dvd_pow h)
  have l5 : p ∣ 5 ^ c → p = 5 := fun h =>
    (Nat.prime_dvd_prime_iff_eq hp (by norm_num)).1 (hp.dvd_of_dvd_pow h)
  have l7 : p ∣ 7 ^ d → p = 7 := fun h =>
    (Nat.prime_dvd_prime_iff_eq hp (by norm_num)).1 (hp.dvd_of_dvd_pow h)
  have l11 : p ∣ 11 ^ e → p = 11 := fun h =>
    (Nat.prime_dvd_prime_iff_eq hp (by norm_num)).1 (hp.dvd_of_dvd_pow h)
  rcases hp.dvd_mul.mp hd with h | h
  · rcases hp.dvd_mul.mp h with h | h
    · rcases hp.dvd_mul.mp h with h | h
      · rcases hp.dvd_mul.mp h with h | h
        · exact Or.inl (l2 h)
        · exact Or.inr (Or.inl (l3 h))
      · exact Or.inr (Or.inr (Or.inl (l5 h)))
    · exact Or.inr (Or.inr (Or.inr (Or.inl (l7 h))))
  · exact Or.inr (Or.inr (Or.inr (Or.inr (l11 h))))

theorem exp_of_smooth : ∀ m : ℕ, 0 < m →
    (∀ p, p.Prime → p ∣ m → p ∈ ({2, 3, 5, 7, 11} : Finset ℕ)) →
    ∃ a b c d e, m = 2 ^ a * 3 ^ b * 5 ^ c * 7 ^ d * 11 ^ e := by
  intro m
  induction m using Nat.strong_induction_on with
  | _ m ih =>
    intro hm hsm
    by_cases h1 : m = 1
    · exact ⟨0, 0, 0, 0, 0, by simp [h1]⟩
    · have hq : m.minFac.Prime := Nat.minFac_prime h1
      have hqd : m.minFac ∣ m := Nat.minFac_dvd m
      have hqm := hsm _ hq hqd
      have h2 : 2 ≤ m.minFac := hq.two_le
      have hlt : m / m.minFac < m := Nat.div_lt_self hm (by omega)
      have hpos : 0 < m / m.minFac :=
        Nat.div_pos (Nat.le_of_dvd hm hqd) (by omega)
      have hsm2 : ∀ p, p.Prime → p ∣ m / m.minFac →
          p ∈ ({2, 3, 5, 7, 11} : Finset ℕ) := fun p hp hd =>
        hsm p hp (hd.trans (Nat.div_dvd_of_dvd hqd))
      obtain ⟨a, b, c, d, e, he⟩ := ih _ hlt hpos hsm2
      have hmm : m = m.minFac * (m / m.minFac) := (Nat.mul_div_cancel' hqd).symm
      simp only [Finset.mem_insert, Finset.mem_singleton] at hqm
      rcases hqm with h | h | h | h | h
      · exact ⟨a + 1, b, c, d, e, by rw [hmm, he, h]; ring⟩
      · exact ⟨a, b + 1, c, d, e, by rw [hmm, he, h]; ring⟩
      · exact ⟨a, b, c + 1, d, e, by rw [hmm, he, h]; ring⟩
      · exact ⟨a, b, c, d + 1, e, by rw [hmm, he, h]; ring⟩
      · exact ⟨a, b, c, d, e + 1, by rw [hmm, he, h]; ring⟩

theorem exists_pow2_between (n : ℕ) (hn : 1 ≤ n) :
    ∃ a, n ≤ 2 ^ a ∧ 2 ^ a < 2 * n := by
  rcases eq_or_lt_of_le (Nat.pow_log_le_self 2 (by omega : n ≠ 0)) with h | h
  · exact ⟨Nat.log 2 n, by omega, by omega⟩
  · refine ⟨Nat.log 2 n + 1, ?_, ?_⟩
    · have := Nat.lt_pow_succ_log_self (by norm_num : 1 < 2) n
      omega
    · have h2 : 2 ^ (Nat.log 2 n + 1) = 2 * 2 ^ Nat.log 2 n := by ring
      omega

theorem good_size_least (n : ℕ) (hn : 1 ≤ n) :
    n ≤ good_size n ∧
    (∀ p, p.Prime → p ∣ good_size n → p ∈ ({2, 3, 5, 7, 11} : Finset ℕ)) ∧
    (∀ m, n ≤ m → (∀ p, p.Prime → p ∣ m → p ∈ ({2, 3, 5, 7, 11} : Finset ℕ)) →
      good_size n ≤ m) := by
  by_cases h12 : n ≤ 12
  · rw [good_size, if_pos h12]
    refine ⟨le_refl n, ?_, ?_⟩
    · intro p hp hd
      have hpn : p ≤ n := Nat.le_of_dvd (by omega) hd
      have hp12 : p ≤ 12 := le_trans hpn h12
      have hp2 : 2 ≤ p := hp.two_le
      clear hpn hd
      interval_cases p <;> first
        | exact absurd hp (by decide)
        | decide
    · intro m hm _
      exact hm
  · rw [good_size, if_neg h12]
    obtain ⟨g1, g2, g3⟩ := gsLoop2_spec n (2 * n) 1 (2 * n) (by omega) (by omega)
    obtain ⟨a0, ha1, ha2⟩ := exists_pow2_between n (by omega)
    have hsm0 : n ≤ 1 * 2 ^ a0 * 3 ^ 0 * 5 ^ 0 * 7 ^ 0 * 11 ^ 0 := by
      have : (1 : ℕ) * 2 ^ a0 * 3 ^ 0 * 5 ^ 0 * 7 ^ 0 * 11 ^ 0 = 2 ^ a0 := by ring
      omega
    have hle0 : gsLoop2 (2 * n) n 1 (2 * n) ≤ 2 ^ a0 := by
      have h := g3 a0 0 0 0 0 hsm0
      have he : (1 : ℕ) * 2 ^ a0 * 3 ^ 0 * 5 ^ 0 * 7 ^ 0 * 11 ^ 0 = 2 ^ a0 := by ring
      omega
    have hne : gsLoop2 (2 * n) n 1 (2 * n) ≠ 2 * n := by omega
    rcases g2 with h | hfull
    · exact absurd h hne
    obtain ⟨hng, a, b, c, d, e, hform⟩ := hfull
    refine ⟨hng, ?_, ?_⟩
    · intro p hp hd
      rw [hform] at hd
      have he : (1 : ℕ) * 2 ^ a * 3 ^ b * 5 ^ c * 7 ^ d * 11 ^ e =
          2 ^ a * 3 ^ b * 5 ^ c * 7 ^ d * 11 ^ e := by ring
      rw [he] at hd
      exact smooth_of_exp a b c d e p hp hd
    · intro m hm hsm
      obtain ⟨a2, b2, c2, d2, e2, hm2⟩ := exp_of_smooth m (by omega) hsm
      have he : (1 : ℕ) * 2 ^ a2 * 3 ^ b2 * 5 ^ c2 * 7 ^ d2 * 11 ^ e2 =
          2 ^ a2 * 3 ^ b2 * 5 ^ c2 * 7 ^ d2 * 11 ^ e2 := by ring
      have h := g3 a2 b2 c2 d2 e2 (by omega)
      omega

/-!
Factorization (cfftp::factorize and rfftp::factorize, which are line for
line identical up to writing len & 3 as len % 4), with the NFCT cap of
add_factor.
-/

theorem isqrtDown_le (n : ℕ) : ∀ k, isqrtDown n k ≤ k := by
  intro k
  induction k with
  | zero => simp [isqrtDown]
  | succ k ih =>
    rw [isqrtDown]
    split
    · exact le_refl _
    · omega

theorem isqrt_le (n : ℕ) : isqrt n ≤ n := isqrtDown_le n n

theorem isqrt_mono {m n : ℕ} (h : m ≤ n) : isqrt m ≤ isqrt n :=
  (le_isqrt_iff n (isqrt m)).2 (le_trans (isqrtDown_sq_le m m) h)

theorem pfl_cons (n : ℕ) (hn : 2 ≤ n) :
    n.primeFactorsList = n.minFac :: (n / n.minFac).primeFactorsList := by
  obtain ⟨k, rfl⟩ : ∃ k, n = k + 2 := ⟨n - 2, by omega⟩
  exact Nat.primeFactorsList_add_two k

theorem pfl_pow_mul (d : ℕ) (hd : d.Prime) :
    ∀ k m, 1 ≤ m → (∀ p, p.Prime → p ∣ m → d ≤ p) →
    (d ^ k * m).primeFactorsList = List.replicate k d ++ m.primeFactorsList := by
  intro k
  induction k with
  | zero => intro m _ _; simp
  | succ k ih =>
    intro m hm hpr
    have hd2 : 2 ≤ d := hd.two_le
    have hdd : d ∣ d ^ (k + 1) * m := ⟨d ^ k * m, by ring⟩
    have hN2 : 2 ≤ d ^ (k + 1) * m := by
      have h1 : d ≤ d ^ (k + 1) := Nat.le_self_pow (by omega) d
      have h2 : d ^ (k + 1) * 1 ≤ d ^ (k + 1) * m := Nat.mul_le_mul_left _ hm
      omega
    have hmf : (d ^ (k + 1) * m).minFac = d := by
      have hle : (d ^ (k + 1) * m).minFac ≤ d := Nat.minFac_le_of_dvd hd2 hdd
      have hq : (d ^ (k + 1) * m).minFac.Prime := Nat.minFac_prime (by omega)
      have hqd : (d ^ (k + 1) * m).minFac ∣ d ^ (k + 1) * m := Nat.minFac_dvd _
      have hge : d ≤ (d ^ (k + 1) * m).minFac := by
        rcases hq.dvd_mul.mp hqd with h | h
        · have := hq.dvd_of_dvd_pow h
          have := (Nat.prime_dvd_prime_iff_eq hq hd).1 this
          omega
        · exact hpr _ hq h
      omega
    have hdiv : d ^ (k + 1) * m / d = d ^ k * m := by
      have he : d ^ (k + 1) * m = d * (d ^ k * m) := by ring
      rw [he, Nat.mul_div_cancel_left _ (by omega : 0 < d)]
    rw [pfl_cons _ hN2, hmf, hdiv, ih m hm hpr, List.replicate_succ]
    rfl

theorem residue_prime (len d : ℕ) (hlen : 1 < len)
    (hpr : ∀ p, p.Prime → p ∣ len → d ≤ p) (hsq : len < d * d) : len.Prime := by
  by_contra hnp
  have hmf : len.minFac.Prime := Nat.minFac_prime (by omega)
  have hged : d ≤ len.minFac := hpr _ hmf (Nat.minFac_dvd len)
  have hsqle : len.minFac ^ 2 ≤ len := Nat.minFac_sq_le_self (by omega) hnp
  have : d * d ≤ len.minFac * len.minFac := Nat.mul_le_mul hged hged
  have h2 : len.minFac ^ 2 = len.minFac * len.minFac := by ring
  omega

theorem peel4sE_spec : ∀ fuel len acc, 1 ≤ len → len ≤ fuel → acc.length ≤ NFCT →
    ∃ t len2, len = 4 ^ t * len2 ∧ ¬ (len2 % 4 = 0) ∧ 1 ≤ len2 ∧
      peel4sE fuel len acc =
        (if acc.length + t ≤ NFCT then .ok (acc ++ List.replicate t 4, len2)
         else .error "too many prime factors") := by
  intro fuel
  induction fuel with
  | zero => intro len acc h1 h2 _; omega
  | succ fuel ih =>
    intro len acc h1 h2 hacc
    rw [peel4sE]
    by_cases h4 : len % 4 = 0
    · rw [if_pos h4]
      have hl4 : 1 ≤ len / 4 := by omega
      have hle : len / 4 ≤ fuel := by omega
      have hlen4 : len = 4 * (len / 4) := by omega
      by_cases hcap : NFCT ≤ acc.length
      · obtain ⟨t, len2, hdec, hnd, hl2, _⟩ := ih (len / 4) [] hl4 hle (by simp [NFCT])
        refine ⟨t + 1, len2, ?_, hnd, hl2, ?_⟩
        · calc len = 4 * (len / 4) := hlen4
            _ = 4 * (4 ^ t * len2) := by rw [hdec]
            _ = 4 ^ (t + 1) * len2 := by ring
        · rw [addFactorE, if_pos hcap, if_neg (by omega)]
      · rw [addFactorE, if_neg hcap]
        have hacclen : (acc ++ [4]).length = acc.length + 1 := by simp
        obtain ⟨t, len2, hdec, hnd, hl2, hres⟩ :=
          ih (len / 4) (acc ++ [4]) hl4 hle (by rw [hacclen]; omega)
        refine ⟨t + 1, len2, ?_, hnd, hl2, ?_⟩
        · calc len = 4 * (len / 4) := hlen4
            _ = 4 * (4 ^ t * len2) := by rw [hdec]
            _ = 4 ^ (t + 1) * len2 := by ring
        · show peel4sE fuel (len / 4) (acc ++ [4]) = _
          rw [hres, hacclen]
          by_cases hc : acc.length + (t + 1) ≤ NFCT
          · rw [if_pos (by omega), if_pos hc]
            congr 1
            congr 1
            rw [List.append_assoc, List.replicate_succ]
            rfl
          · rw [if_neg (by omega), if_neg hc]
    · rw [if_neg h4]
      exact ⟨0, len, by simp, h4, h1, by rw [if_pos (by omega)]; simp⟩

theorem divideOutE_spec (d : ℕ) (hd : 2 ≤ d) :
    ∀ fuel len acc, 1 ≤ len → len ≤ fuel → acc.length ≤ NFCT →
    ∃ k len2, len = d ^ k * len2 ∧ ¬ (len2 % d = 0) ∧ 1 ≤ len2 ∧
      divideOutE fuel len d acc =
        (if acc.length + k ≤ NFCT then .ok (acc ++ List.replicate k d, len2)
         else .error "too many prime factors") := by
  intro fuel
  induction fuel with
  | zero => intro len acc h1 h2 _; omega
  | succ fuel ih =>
    intro len acc h1 h2 hacc
    rw [divideOutE]
    by_cases hm : len % d = 0
    · rw [if_pos hm]
      have hdvd : d ∣ len := Nat.dvd_of_mod_eq_zero hm
      have hl4 : 1 ≤ len / d := Nat.div_pos (Nat.le_of_dvd (by omega) hdvd) (by omega)
      have hlt : len / d < len := Nat.div_lt_self (by omega) (by omega)
      have hle : len / d ≤ fuel := by omega
      have hlend : len = d * (len / d) := (Nat.mul_div_cancel' hdvd).symm
      by_cases hcap : NFCT ≤ acc.length
      · obtain ⟨k, len2, hdec, hnd, hl2, _⟩ := ih (len / d) [] hl4 hle (by simp [NFCT])
        refine ⟨k + 1, len2, ?_, hnd, hl2, ?_⟩
        · calc len = d * (len / d) := hlend
            _ = d * (d ^ k * len2) := by rw [hdec]
            _ = d ^ (k + 1) * len2 := by ring
        · rw [addFactorE, if_pos hcap, if_neg (by omega)]
      · rw [addFactorE, if_neg hcap]
        have hacclen : (acc ++ [d]).length = acc.length + 1 := by simp
        obtain ⟨k, len2, hdec, hnd, hl2, hres⟩ :=
          ih (len / d) (acc ++ [d]) hl4 hle (by rw [hacclen]; omega)
        refine ⟨k + 1, len2, ?_, hnd, hl2, ?_⟩
        · calc len = d * (len / d) := hlend
            _ = d * (d ^ k * len2) := by rw [hdec]
            _ = d ^ (k + 1) * len2 := by ring
        · show divideOutE fuel (len / d) d (acc ++ [d]) = _
          rw [hres, hacclen]
          by_cases hc : acc.length + (k + 1) ≤ NFCT
          · rw [if_pos (by omega), if_pos hc]
            congr 1
            congr 1
            rw [List.append_assoc, List.replicate_succ]
            rfl
          · rw [if_neg (by omega), if_neg hc]
    · rw [if_neg hm]
      exact ⟨0, len, by simp, hm, h1, by rw [if_pos (by omega)]; simp⟩

theorem oddExit (len d maxl : ℕ) (acc : List ℕ) (h1 : 1 ≤ len)
    (hpr : ∀ p, p.Prime → p ∣ len → d ≤ p)
    (hmx : maxl = isqrt len + 1) (hguard : len = 1 ∨ maxl ≤ d)
    (hacc : acc.length ≤ NFCT) :
    ∃ L len2, 1 ≤ len2 ∧ (1 < len2 → len2.Prime) ∧
      L ++ (if 1 < len2 then [len2] else []) = len.primeFactorsList ∧
      (Except.ok (acc, len) : Except String (List ℕ × ℕ)) =
        (if acc.length + L.length ≤ NFCT then .ok (acc ++ L, len2)
         else .error "too many prime factors") := by
  by_cases hl1 : len = 1
  · refine ⟨[], 1, le_refl 1, by omega, ?_, ?_⟩
    · simp [hl1]
    · rw [if_pos (by simpa using hacc)]
      simp [hl1]
  · have hmd : maxl ≤ d := by
      rcases hguard with h | h
      · exact absurd h hl1
      · exact h
    have hlt : len < d * d := by
      have : isqrt len < d := by omega
      exact (isqrt_lt_iff len d).1 this
    have hp : len.Prime := residue_prime len d (by omega) hpr hlt
    refine ⟨[], len, h1, fun _ => hp, ?_, ?_⟩
    · simp [if_pos hp.one_lt, Nat.primeFactorsList_prime hp]
    · rw [if_pos (by simpa using hacc)]
      simp

theorem oddLoopE_spec : ∀ fuel len d maxl acc,
    1 ≤ len → 3 ≤ d → d % 2 = 1 →
    (∀ p, p.Prime → p ∣ len → d ≤ p) →
    maxl = isqrt len + 1 → maxl ≤ d + 2 * fuel → acc.length ≤ NFCT →
    ∃ L len2, 1 ≤ len2 ∧ (1 < len2 → len2.Prime) ∧
      L ++ (if 1 < len2 then [len2] else []) = len.primeFactorsList ∧
      oddLoopE fuel len d maxl acc =
        (if acc.length + L.length ≤ NFCT then .ok (acc ++ L, len2)
         else .error "too many prime factors") := by
  intro fuel
  induction fuel with
  | zero =>
    intro len d maxl acc h1 hd3 _ hpr hmx hfu hacc
    rw [oddLoopE]
    exact oddExit len d maxl acc h1 hpr hmx (Or.inr (by omega)) hacc
  | succ fuel ih =>
    intro len d maxl acc h1 hd3 hdodd hpr hmx hfu hacc
    rw [oddLoopE]
    by_cases hg : 1 < len ∧ d < maxl
    · rw [if_pos hg]
      by_cases hdm : len % d = 0
      · rw [if_pos hdm]
        have hdvd : d ∣ len := Nat.dvd_of_mod_eq_zero hdm
        have hdprime : d.Prime := by
          have hq := Nat.minFac_prime (by omega : d ≠ 1)
          have hdl : d.minFac ∣ len := (Nat.minFac_dvd d).trans hdvd
          have hge : d ≤ d.minFac := hpr _ hq hdl
          have hle : d.minFac ≤ d := Nat.minFac_le (by omega)
          have heq : d.minFac = d := by omega
          rw [← heq]; exact hq
        obtain ⟨k, len2, hdec, hnd2, hl2, hdres⟩ :=
          divideOutE_spec d (by omega) len len acc h1 (le_refl len) hacc
        have hl2dvd : len2 ∣ len := ⟨d ^ k, by rw [hdec]; ring⟩
        have hl2le : len2 ≤ len := Nat.le_of_dvd (by omega) hl2dvd
        have hpr2 : ∀ p, p.Prime → p ∣ len2 → d + 2 ≤ p := by
          intro p hp hdl
          have hge : d ≤ p := hpr p hp (hdl.trans hl2dvd)
          have hne : p ≠ d := by
            intro he
            rw [he] at hdl
            exact hnd2 (Nat.mod_eq_zero_of_dvd hdl)
          have hodd : p % 2 = 1 := Nat.odd_iff.1 (hp.odd_of_ne_two (by omega))
          omega
        have hpfl : len.primeFactorsList =
            List.replicate k d ++ len2.primeFactorsList := by
          rw [hdec]
          exact pfl_pow_mul d hdprime k len2 hl2
            (fun p hp hdp => hpr p hp (hdp.trans hl2dvd))
        have hmono : isqrt len2 + 1 ≤ (d + 2) + 2 * fuel := by
          have := isqrt_mono hl2le
          omega
        by_cases hcap : acc.length + k ≤ NFCT
        · rw [hdres, if_pos hcap]
          obtain ⟨L2, len3, p1, p2, p3, p4⟩ :=
            ih len2 (d + 2) (isqrt len2 + 1) (acc ++ List.replicate k d)
              hl2 (by omega) (by omega) hpr2 rfl hmono (by simp; omega)
          refine ⟨List.replicate k d ++ L2, len3, p1, p2, ?_, ?_⟩
          · rw [List.append_assoc, p3, hpfl]
          · show oddLoopE fuel len2 (d + 2) (isqrt len2 + 1)
              (acc ++ List.replicate k d) = _
            rw [p4]
            have hlen : (acc ++ List.replicate k d).length = acc.length + k := by
              simp
            have hLlen : (List.replicate k d ++ L2).length = k + L2.length := by
              simp
            rw [hlen, hLlen]
            by_cases hc2 : acc.length + (k + L2.length) ≤ NFCT
            · rw [if_pos (by omega), if_pos (by omega), List.append_assoc]
            · rw [if_neg (by omega), if_neg (by omega)]
        · rw [hdres, if_neg hcap]
          obtain ⟨L2, len3, p1, p2, p3, _⟩ :=
            ih len2 (d + 2) (isqrt len2 + 1) [] hl2 (by omega) (by omega) hpr2
              rfl hmono (by simp [NFCT])
          refine ⟨List.replicate k d ++ L2, len3, p1, p2, ?_, ?_⟩
          · rw [List.append_assoc, p3, hpfl]
          · show (Except.error "too many prime factors" :
              Except String (List ℕ × ℕ)) = _
            have hLlen : (List.replicate k d ++ L2).length = k + L2.length := by
              simp
            rw [hLlen, if_neg (by omega)]
      · rw [if_neg hdm]
        have hpr2 : ∀ p, p.Prime → p ∣ len → d + 2 ≤ p := by
          intro p hp hdl
          have hge : d ≤ p := hpr p hp hdl
          have hne : p ≠ d := by
            intro he
            rw [he] at hdl
            exact hdm (Nat.mod_eq_zero_of_dvd hdl)
          have hodd : p % 2 = 1 := Nat.odd_iff.1 (hp.odd_of_ne_two (by omega))
          omega
        exact ih len (d + 2) maxl acc h1 (by omega) (by omega) hpr2 hmx
          (by omega) hacc
    · rw [if_neg hg]
      exact oddExit len d maxl acc h1 hpr hmx (by omega) hacc

theorem swapFirstLast_replicate (t : ℕ) :
    swapFirstLast (List.replicate t 4 ++ [2]) = 2 :: List.replicate t 4 := by
  cases t with
  | zero => rfl
  | succ s =>
    rw [List.replicate_succ, List.cons_append, swapFirstLast]
    rw [List.getLast?_concat, List.dropLast_concat]
    show 2 :: (List.replicate s 4 ++ [4]) = 2 :: List.replicate (s + 1) 4
    rw [← List.replicate_succ']

theorem factorization2_eq (e m : ℕ) (hm : ¬ (m % 2 = 0)) (hm1 : 1 ≤ m) :
    (2 ^ e * m).factorization 2 = e ∧ (2 ^ e * m) / 2 ^ e = m := by
  constructor
  · have h2 : m.factorization 2 = 0 :=
      Nat.factorization_eq_zero_of_not_dvd (fun h => hm (Nat.mod_eq_zero_of_dvd h))
    rw [Nat.factorization_mul (by positivity) (by omega)]
    simp [h2, Nat.factorization_pow, Nat.Prime.factorization Nat.prime_two]
  · exact Nat.mul_div_cancel_left m (by positivity)

theorem factorizeE_spec (n : ℕ) (hn : 2 ≤ n) :
    factorizeE n =
      (if (factorList n).length ≤ NFCT then .ok (factorList n)
       else .error "too many prime factors") := by
  rw [factorizeE]
  obtain ⟨t, len2, hdec, hnd4, hl2, hpeel⟩ :=
    peel4sE_spec n n [] (by omega) (le_refl n) (by simp [NFCT])
  rw [hpeel]
  have h4t : (4 : ℕ) ^ t = 2 ^ (2 * t) := by
    rw [pow_mul]
    norm_num
  by_cases hcapt : ([] : List ℕ).length + t ≤ NFCT
  · rw [if_pos hcapt]
    simp only [List.nil_append]
    have htle : t ≤ NFCT := by simpa using hcapt
    by_cases h2 : len2 % 2 = 0
    · rw [if_pos h2]
      have hl23 : len2 = 2 * (len2 / 2) := by omega
      set len3 := len2 / 2 with hlen3
      have hodd3 : ¬ (len3 % 2 = 0) := by omega
      have hl31 : 1 ≤ len3 := by omega
      have hneq : n = 2 ^ (2 * t + 1) * len3 := by
        calc n = 4 ^ t * len2 := hdec
          _ = 2 ^ (2 * t) * (2 * len3) := by rw [h4t, hl23]
          _ = 2 ^ (2 * t + 1) * len3 := by ring
      obtain ⟨hv0, hdv0⟩ := factorization2_eq (2 * t + 1) len3 hodd3 hl31
      rw [← hneq] at hv0 hdv0
      have hdv2 : n / 2 ^ (n.factorization 2) = len3 := by rw [hv0]; exact hdv0
      have hOdd : Odd (n.factorization 2) := by
        rw [hv0]; exact ⟨t, by omega⟩
      have hhalf : n.factorization 2 / 2 = t := by omega
      have hfl : factorList n = 2 :: (List.replicate t 4 ++ len3.primeFactorsList) := by
        rw [factorList, if_pos hOdd, hhalf, hdv2]
        rfl
      by_cases hcap2 : NFCT ≤ t
      · have ht25 : t = NFCT := by omega
        rw [addFactorE, if_pos (by simp [ht25])]
        have hflen : ¬ ((factorList n).length ≤ NFCT) := by
          rw [hfl]
          simp only [List.length_cons, List.length_append, List.length_replicate, List.length_nil]
          omega
        rw [if_neg hflen]
      · rw [addFactorE, if_neg (by simp only [List.length_append, List.length_cons, List.length_replicate, List.length_nil]; omega)]
        show (match oddLoopE len3 len3 3 (isqrt len3 + 1)
            (swapFirstLast (List.replicate t 4 ++ [2])) with
          | Except.error e => Except.error e
          | Except.ok (acc3, len4) =>
            if 1 < len4 then addFactorE acc3 len4 else Except.ok acc3) = _
        rw [swapFirstLast_replicate]
        obtain ⟨L, len4, q1, q2, q3, q4⟩ :=
          oddLoopE_spec len3 len3 3 (isqrt len3 + 1) (2 :: List.replicate t 4)
            hl31 (by omega) (by omega)
            (fun p hp hdp => by
              have h2le : 2 ≤ p := hp.two_le
              have : p ≠ 2 := by
                intro he
                rw [he] at hdp
                exact hodd3 (Nat.mod_eq_zero_of_dvd hdp)
              omega)
            rfl (by have := isqrt_le len3; omega) (by simp; omega)
        rw [q4]
        have hal : (2 :: List.replicate t 4).length = t + 1 := by simp
        rw [hal]
        by_cases hcap3 : t + 1 + L.length ≤ NFCT
        · rw [if_pos hcap3]
          show (if 1 < len4 then addFactorE (2 :: List.replicate t 4 ++ L) len4
            else Except.ok (2 :: List.replicate t 4 ++ L)) = _
          by_cases hres : 1 < len4
          · rw [if_pos hres, addFactorE]
            rw [if_pos hres] at q3
            by_cases hcap4 : NFCT ≤ t + 1 + L.length
            · rw [if_pos (by simp only [List.length_append, List.length_cons, List.length_replicate, List.length_nil]; omega)]
              have hflen : ¬ ((factorList n).length ≤ NFCT) := by
                rw [hfl, ← q3]
                simp only [List.length_cons, List.length_append, List.length_replicate, List.length_nil]
                clear hpeel q4
                omega
              rw [if_neg hflen]
            · rw [if_neg (by simp only [List.length_append, List.length_cons, List.length_replicate, List.length_nil]; omega)]
              have hflen : (factorList n).length ≤ NFCT := by
                rw [hfl, ← q3]
                simp only [List.length_cons, List.length_append, List.length_replicate, List.length_nil]
                clear hpeel q4
                omega
              rw [if_pos hflen]
              congr 1
              rw [hfl, ← q3]
              try simp
          · rw [if_neg hres]
            rw [if_neg hres] at q3
            simp only [List.append_nil] at q3
            have hflen : (factorList n).length ≤ NFCT := by
              rw [hfl, q3.symm]
              simp only [List.length_cons, List.length_append, List.length_replicate, List.length_nil]
              clear hpeel q4
              omega
            rw [if_pos hflen]
            congr 1
            rw [hfl, q3.symm]
            try simp
        · rw [if_neg hcap3]
          have hpfL : L.length ≤ len3.primeFactorsList.length := by
            rw [← q3]
            split <;> simp
          have hflen : ¬ ((factorList n).length ≤ NFCT) := by
            rw [hfl]
            have hge : len3.primeFactorsList.length ≥ L.length := hpfL
            simp only [List.length_cons, List.length_append, List.length_replicate, List.length_nil]
            omega
          rw [if_neg hflen]
    · rw [if_neg h2]
      have hneq : n = 2 ^ (2 * t) * len2 := by
        calc n = 4 ^ t * len2 := hdec
          _ = 2 ^ (2 * t) * len2 := by rw [h4t]
      obtain ⟨hv0, hdv0⟩ := factorization2_eq (2 * t) len2 h2 hl2
      rw [← hneq] at hv0 hdv0
      have hdv2 : n / 2 ^ (n.factorization 2) = len2 := by rw [hv0]; exact hdv0
      have hEven : ¬ Odd (n.factorization 2) := by
        rw [hv0, Nat.odd_iff]
        omega
      have hhalf : n.factorization 2 / 2 = t := by omega
      have hfl : factorList n = List.replicate t 4 ++ len2.primeFactorsList := by
        rw [factorList, if_neg hEven, hhalf, hdv2]
        rfl
      show (match oddLoopE len2 len2 3 (isqrt len2 + 1) (List.replicate t 4) with
        | Except.error e => Except.error e
        | Except.ok (acc3, len4) =>
          if 1 < len4 then addFactorE acc3 len4 else Except.ok acc3) = _
      obtain ⟨L, len4, q1, q2, q3, q4⟩ :=
        oddLoopE_spec len2 len2 3 (isqrt len2 + 1) (List.replicate t 4)
          hl2 (by omega) (by omega)
          (fun p hp hdp => by
            have h2le : 2 ≤ p := hp.two_le
            have : p ≠ 2 := by
              intro he
              rw [he] at hdp
              exact h2 (Nat.mod_eq_zero_of_dvd hdp)
            omega)
          rfl (by have := isqrt_le len2; omega) (by simp; omega)
      rw [q4]
      have hal : (List.replicate t 4).length = t := by simp
      rw [hal]
      by_cases hcap3 : t + L.length ≤ NFCT
      · rw [if_pos hcap3]
        show (if 1 < len4 then addFactorE (List.replicate t 4 ++ L) len4
          else Except.ok (List.replicate t 4 ++ L)) = _
        by_cases hres : 1 < len4
        · rw [if_pos hres, addFactorE]
          rw [if_pos hres] at q3
          by_cases hcap4 : NFCT ≤ t + L.length
          · rw [if_pos (by simp only [List.length_append, List.length_cons, List.length_replicate, List.length_nil]; omega)]
            have hflen : ¬ ((factorList n).length ≤ NFCT) := by
              rw [hfl, ← q3]
              simp only [List.length_cons, List.length_append, List.length_replicate, List.length_nil]
              omega
            rw [if_neg hflen]
          · rw [if_neg (by simp only [List.length_append, List.length_cons, List.length_replicate, List.length_nil]; omega)]
            have hflen : (factorList n).length ≤ NFCT := by
              rw [hfl, ← q3]
              simp only [List.length_cons, List.length_append, List.length_replicate, List.length_nil]
              omega
            rw [if_pos hflen]
            congr 1
            rw [hfl, ← q3]
            try simp
        · rw [if_neg hres]
          rw [if_neg hres] at q3
          simp only [List.append_nil] at q3
          have hflen : (factorList n).length ≤ NFCT := by
            rw [hfl, q3.symm]
            simp only [List.length_cons, List.length_append, List.length_replicate, List.length_nil]
            omega
          rw [if_pos hflen]
          congr 1
          rw [hfl, q3.symm]
          try simp
      · rw [if_neg hcap3]
        have hpfL : L.length ≤ len2.primeFactorsList.length := by
          rw [← q3]
          split <;> simp
        have hflen : ¬ ((factorList n).length ≤ NFCT) := by
          rw [hfl]
          have hge : len2.primeFactorsList.length ≥ L.length := hpfL
          simp only [List.length_cons, List.length_append, List.length_replicate, List.length_nil]
          omega
        rw [if_neg hflen]
  · rw [if_neg hcapt]
    have hvge : 2 * t ≤ n.factorization 2 := by
      have hneq : n = 2 ^ (2 * t) * len2 := by
        calc n = 4 ^ t * len2 := hdec
          _ = 2 ^ (2 * t) * len2 := by rw [h4t]
      have h1 : ((2 : ℕ) ^ (2 * t)).factorization 2 = 2 * t := by
        simp [Nat.factorization_pow, Nat.Prime.factorization Nat.prime_two]
      rw [hneq, Nat.factorization_mul (by positivity) (by omega)]
      simp only [Finsupp.add_apply, h1]
      omega
    have hflen : ¬ ((factorList n).length ≤ NFCT) := by
      rw [factorList]
      have hb : t ≤ n.factorization 2 / 2 := by omega
      simp only [List.length_append, List.length_replicate]
      have : NFCT < t := by simpa using hcapt
      split <;> simp <;> omega
    rw [if_neg hflen]

theorem factorList_prod (n : ℕ) (hn : 1 ≤ n) : (factorList n).prod = n := by
  have h2 : 2 ^ (n.factorization 2) * (n / 2 ^ n.factorization 2) = n :=
    Nat.ordProj_mul_ordCompl_eq_self n 2
  have hm : n / 2 ^ n.factorization 2 ≠ 0 := by
    intro h
    rw [h, mul_zero] at h2
    omega
  rw [factorList, List.prod_append, List.prod_append,
    Nat.prod_primeFactorsList hm, List.prod_replicate]
  by_cases ho : Odd (n.factorization 2)
  · rw [if_pos ho]
    obtain ⟨k, hk⟩ := ho
    have hdiv : n.factorization 2 / 2 = k := by omega
    have h4 : (4 : ℕ) ^ k = 2 ^ (2 * k) := by
      rw [pow_mul]
      norm_num
    rw [hdiv, h4]
    simp only [List.prod_cons, List.prod_nil, mul_one]
    calc 2 * 2 ^ (2 * k) * (n / 2 ^ n.factorization 2) =
        2 ^ (2 * k + 1) * (n / 2 ^ n.factorization 2) := by ring
      _ = n := by rw [← hk]; exact h2
  · rw [if_neg ho]
    obtain ⟨k, hk⟩ := Nat.even_iff_not_odd.2 ho
    have hdiv : n.factorization 2 / 2 = k := by omega
    have h4 : (4 : ℕ) ^ k = 2 ^ (2 * k) := by
      rw [pow_mul]
      norm_num
    rw [hdiv, h4]
    simp only [List.prod_nil, one_mul]
    calc 2 ^ (2 * k) * (n / 2 ^ n.factorization 2) =
        2 ^ (n.factorization 2) * (n / 2 ^ n.factorization 2) := by
          rw [hk]; ring_nf
      _ = n := h2

theorem factorList_head (n : ℕ) (hn : 2 ≤ n) :
    ((factorList n).head? = some 2 ↔ Odd (n.factorization 2)) := by
  rw [factorList]
  by_cases ho : Odd (n.factorization 2)
  · rw [if_pos ho]
    simp [ho]
  · rw [if_neg ho]
    simp only [List.nil_append]
    constructor
    · intro h
      exfalso
      by_cases hk : n.factorization 2 / 2 = 0
      · rw [hk] at h
        simp only [List.replicate_zero, List.nil_append] at h
        have hv0 : n.factorization 2 = 0 := by
          rcases Nat.even_iff_not_odd.2 ho with ⟨k, hk2⟩
          omega
        have hnd : ¬ (2 ∣ n) := by
          intro hdvd
          have := Nat.Prime.factorization_pos_of_dvd Nat.prime_two (by omega) hdvd
          omega
        rw [hv0] at h
        simp only [pow_zero, Nat.div_one] at h
        have hcons := pfl_cons n hn
        rw [hcons] at h
        simp only [List.head?_cons, Option.some.injEq] at h
        exact hnd (h ▸ Nat.minFac_dvd n)
      · obtain ⟨k, hk2⟩ : ∃ k, n.factorization 2 / 2 = k + 1 :=
          ⟨n.factorization 2 / 2 - 1, by omega⟩
        rw [hk2, List.replicate_succ] at h
        simp at h
    · intro h
      exact absurd h ho

theorem pfl_oddpart_facts (n : ℕ) (hn : 2 ≤ n) :
    List.Sorted (· ≤ ·) (Nat.primeFactorsList (n / 2 ^ n.factorization 2)) ∧
    ∀ p ∈ Nat.primeFactorsList (n / 2 ^ n.factorization 2),
      p.Prime ∧ p % 2 = 1 := by
  refine ⟨Nat.primeFactorsList_sorted _, ?_⟩
  intro p hp
  have hprime : p.Prime := Nat.prime_of_mem_primeFactorsList hp
  have hdvd : p ∣ n / 2 ^ n.factorization 2 := Nat.dvd_of_mem_primeFactorsList hp
  have hnd2 : ¬ (2 ∣ n / 2 ^ n.factorization 2) :=
    Nat.not_dvd_ordCompl Nat.prime_two (by omega)
  have hp2 : p ≠ 2 := by
    intro he
    rw [he] at hdvd
    exact hnd2 hdvd
  exact ⟨hprime, Nat.odd_iff.1 (hprime.odd_of_ne_two hp2)⟩

theorem factorList_mem (n : ℕ) (hn : 2 ≤ n) (f : ℕ) (hf : f ∈ factorList n) :
    f = 2 ∨ f = 4 ∨ (f.Prime ∧ f % 2 = 1) := by
  rw [factorList] at hf
  simp only [List.mem_append] at hf
  rcases hf with (hf | hf) | hf
  · left
    by_cases ho : Odd (n.factorization 2)
    · rw [if_pos ho] at hf
      simpa using hf
    · rw [if_neg ho] at hf
      simp at hf
  · right; left
    exact List.eq_of_mem_replicate hf
  · right; right
    exact (pfl_oddpart_facts n hn).2 f hf

/-- C3: for every N >= 1, good_size(N) returns the smallest integer M >= N
whose prime factors are all in {2, 3, 5, 7, 11}. -/
theorem c3_good_size_least_smooth (n : ℕ) (hn : 1 ≤ n) :
    n ≤ good_size n ∧
    (∀ p, p.Prime → p ∣ good_size n → p ∈ ({2, 3, 5, 7, 11} : Finset ℕ)) ∧
    (∀ m, n ≤ m → (∀ p, p.Prime → p ∣ m → p ∈ ({2, 3, 5, 7, 11} : Finset ℕ)) →
      good_size n ≤ m) :=
  good_size_least n hn

/-- Witness for C3 at N = 100. -/
theorem c3_witness :
    1 ≤ 100 ∧
    (100 ≤ good_size 100 ∧
      (∀ p, p.Prime → p ∣ good_size 100 → p ∈ ({2, 3, 5, 7, 11} : Finset ℕ)) ∧
      (∀ m, 100 ≤ m →
        (∀ p, p.Prime → p ∣ m → p ∈ ({2, 3, 5, 7, 11} : Finset ℕ)) →
        good_size 100 ≤ m)) :=
  ⟨by norm_num, c3_good_size_least_smooth 100 (by norm_num)⟩

/-- C5: for every N >= 2, the factorization computed at plan construction
multiplies back to N, consists of the peeled 4s with the single 2 rotated to
the front exactly when the power of 2 in N is odd, followed by the odd prime
factors in increasing order with the prime residue appended, and its first
entry is 2 iff the power of 2 dividing N is odd. -/
theorem c5_factorize_characterization (n : ℕ) (hn : 2 ≤ n) (L : List ℕ)
    (hL : factorizeE n = .ok L) :
    L.prod = n ∧
    L = (if Odd (n.factorization 2) then [2] else []) ++
        List.replicate (n.factorization 2 / 2) 4 ++
        Nat.primeFactorsList (n / 2 ^ n.factorization 2) ∧
    (L.head? = some 2 ↔ Odd (n.factorization 2)) ∧
    List.Sorted (· ≤ ·) (Nat.primeFactorsList (n / 2 ^ n.factorization 2)) ∧
    (∀ p ∈ Nat.primeFactorsList (n / 2 ^ n.factorization 2),
      p.Prime ∧ p % 2 = 1) := by
  have hmaster := factorizeE_spec n hn
  rw [hL] at hmaster
  by_cases hc : (factorList n).length ≤ NFCT
  · rw [if_pos hc] at hmaster
    have hLeq : L = factorList n := by
      injection hmaster
    obtain ⟨hs, hmem⟩ := pfl_oddpart_facts n hn
    refine ⟨?_, ?_, ?_, hs, hmem⟩
    · rw [hLeq]
      exact factorList_prod n (by omega)
    · rw [hLeq, factorList]
    · rw [hLeq]
      exact factorList_head n hn
  · rw [if_neg hc] at hmaster
    exact absurd hmaster (by simp)

/-- Witness for C5 at N = 12 with factor list [4, 3]. -/
theorem c5_witness :
    (2 ≤ 12 ∧ factorizeE 12 = .ok [4, 3]) ∧
    (([4, 3] : List ℕ).prod = 12 ∧
      [4, 3] = (if Odd ((12 : ℕ).factorization 2) then [2] else []) ++
        List.replicate ((12 : ℕ).factorization 2 / 2) 4 ++
        Nat.primeFactorsList (12 / 2 ^ (12 : ℕ).factorization 2) ∧
      (([4, 3] : List ℕ).head? = some 2 ↔ Odd ((12 : ℕ).factorization 2)) ∧
      List.Sorted (· ≤ ·)
        (Nat.primeFactorsList (12 / 2 ^ (12 : ℕ).factorization 2)) ∧
      (∀ p ∈ Nat.primeFactorsList (12 / 2 ^ (12 : ℕ).factorization 2),
        p.Prime ∧ p % 2 = 1)) :=
  ⟨⟨by norm_num, rfl⟩, c5_factorize_characterization 12 (by norm_num) [4, 3] rfl⟩

/-- C6: construction of a complex mixed-radix plan raises an error exactly
when N = 0 or when the factorization of N produces more than NFCT = 25
factors; every other N succeeds (allocation aside). -/
theorem c6_cfftp_error_iff (n : ℕ) :
    (∃ e, cfftp_new n = .error e) ↔ (n = 0 ∨ NFCT < numFactors n) := by
  rw [cfftp_new]
  by_cases h0 : n = 0
  · rw [if_pos h0]
    constructor
    · intro _
      exact Or.inl h0
    · intro _
      exact ⟨"zero length FFT requested", rfl⟩
  · rw [if_neg h0]
    by_cases h1 : n = 1
    · rw [if_pos h1]
      constructor
      · rintro ⟨e, he⟩
        exact absurd he (by simp)
      · intro h
        exfalso
        rcases h with h | h
        · exact h0 h
        · rw [h1] at h
          have : numFactors 1 = 0 := by
            rw [numFactors, factorList]
            simp [Nat.factorization_one]
          omega
    · rw [if_neg h1]
      rw [factorizeE_spec n (by omega)]
      by_cases hc : (factorList n).length ≤ NFCT
      · rw [if_pos hc]
        constructor
        · rintro ⟨e, he⟩
          exact absurd he (by simp)
        · intro h
          rcases h with h | h
          · exact absurd h h0
          · rw [numFactors] at h
            omega
      · rw [if_neg hc]
        constructor
        · intro _
          right
          rw [numFactors]
          omega
        · intro _
          exact ⟨"too many prime factors", rfl⟩

/-!
Plan dispatchers pocketfft_c and pocketfft_r (constructor logic only: which
inner plan gets built).  The comparison largest_prime_factor(n) <= sqrt(n)
on doubles is embedded exactly as largest_prime_factor n <= isqrt n, and the
source temporaries comp1 and comp2 (with comp2 *= 1.5) are inlined into a
single comparison.
-/

/-- Counterexample to C4: at N = 149 the claimed rule predicts the Bluestein
plan for pocketfft_r, but the code compares against 0.5 * cost_guess(149)
and constructs the mixed-radix plan. -/
theorem c4_counterexample :
    ¬ (∀ n : ℕ, 1 ≤ n → dispatchClaimAt pocketfft_r_choice n) := by
  intro h
  have hguard : ¬ ((149 : ℕ) < 50 ∨
      largest_prime_factor 149 ≤ isqrt 149) := by decide
  have h149 := (h 149 (by norm_num)).2 hguard
  have hg297 : good_size (2 * 149 - 1) = 297 := by decide
  have ht149 : cgTenths 149 = 1639 := by decide
  have ht297 : cgTenths 297 = 211 := by decide
  have hcost : (1.5 : ℚ) * (2 * cost_guess (good_size (2 * 149 - 1))) <
      cost_guess 149 := by
    rw [hg297, cost_guess, cost_guess, ht149, ht297]
    norm_num
  have hblue : pocketfft_r_choice 149 = .ok .blue := h149.1.2 hcost
  have hnotcost : ¬ ((1.5 : ℚ) * (2 * cost_guess (good_size (2 * 149 - 1))) <
      (0.5 : ℚ) * cost_guess 149) := by
    rw [hg297, cost_guess, cost_guess, ht149, ht297]
    norm_num
  have hpack : pocketfft_r_choice 149 = .ok .pack := by
    rw [pocketfft_r_choice, if_neg (by norm_num), if_neg hguard, if_neg hnotcost]
  rw [hblue] at hpack
  exact PlanChoice.noConfusion (Except.ok.inj hpack)

/-- C4 amended: both dispatchers use the mixed-radix plan when N < 50 or
largest_prime_factor(N) <= sqrt(N); otherwise pocketfft_c picks Bluestein
exactly when 1.5 * 2 * cost_guess(good_size(2N-1)) < cost_guess(N), while
pocketfft_r picks Bluestein exactly when that quantity is below
0.5 * cost_guess(N); in every case exactly one inner plan is constructed. -/
theorem c4_dispatch_amended (n : ℕ) (hn : 1 ≤ n) :
    dispatchClaimAt pocketfft_c_choice n ∧
    (((n < 50 ∨ largest_prime_factor n ≤ isqrt n) →
        pocketfft_r_choice n = .ok .pack) ∧
      (¬ (n < 50 ∨ largest_prime_factor n ≤ isqrt n) →
        (pocketfft_r_choice n = .ok .blue ↔
          (1.5 : ℚ) * (2 * cost_guess (good_size (2 * n - 1))) <
            (0.5 : ℚ) * cost_guess n) ∧
        (pocketfft_r_choice n = .ok .pack ↔
          ¬ ((1.5 : ℚ) * (2 * cost_guess (good_size (2 * n - 1))) <
            (0.5 : ℚ) * cost_guess n)))) ∧
    (∃ ch, pocketfft_c_choice n = .ok ch) ∧
    (∃ ch, pocketfft_r_choice n = .ok ch) := by
  unfold dispatchClaimAt pocketfft_c_choice pocketfft_r_choice
  rw [if_neg (by omega : ¬ n = 0), if_neg (by omega : ¬ n = 0)]
  by_cases hg : n < 50 ∨ largest_prime_factor n ≤ isqrt n
  · rw [if_pos hg, if_pos hg]
    exact ⟨⟨fun _ => rfl, fun hng => absurd hg hng⟩,
      ⟨fun _ => rfl, fun hng => absurd hg hng⟩, ⟨.pack, rfl⟩, ⟨.pack, rfl⟩⟩
  · rw [if_neg hg, if_neg hg]
    refine ⟨⟨fun hgg => absurd hgg hg, fun _ => ?_⟩,
      ⟨fun hgg => absurd hgg hg, fun _ => ?_⟩, ?_, ?_⟩
    · by_cases hcmp : (1.5 : ℚ) * (2 * cost_guess (good_size (2 * n - 1))) <
        cost_guess n
      · rw [if_pos hcmp]
        exact ⟨⟨fun _ => hcmp, fun _ => rfl⟩,
          ⟨fun h => PlanChoice.noConfusion (Except.ok.inj h),
           fun h => absurd hcmp h⟩⟩
      · rw [if_neg hcmp]
        exact ⟨⟨fun h => PlanChoice.noConfusion (Except.ok.inj h),
            fun h => absurd h hcmp⟩,
          ⟨fun _ => hcmp, fun _ => rfl⟩⟩
    · by_cases hcmp : (1.5 : ℚ) * (2 * cost_guess (good_size (2 * n - 1))) <
        (0.5 : ℚ) * cost_guess n
      · rw [if_pos hcmp]
        exact ⟨⟨fun _ => hcmp, fun _ => rfl⟩,
          ⟨fun h => PlanChoice.noConfusion (Except.ok.inj h),
           fun h => absurd hcmp h⟩⟩
      · rw [if_neg hcmp]
        exact ⟨⟨fun h => PlanChoice.noConfusion (Except.ok.inj h),
            fun h => absurd h hcmp⟩,
          ⟨fun _ => hcmp, fun _ => rfl⟩⟩
    · by_cases hcmp : (1.5 : ℚ) * (2 * cost_guess (good_size (2 * n - 1))) <
        cost_guess n
      · rw [if_pos hcmp]
        exact ⟨.blue, rfl⟩
      · rw [if_neg hcmp]
        exact ⟨.pack, rfl⟩
    · by_cases hcmp : (1.5 : ℚ) * (2 * cost_guess (good_size (2 * n - 1))) <
        (0.5 : ℚ) * cost_guess n
      · rw [if_pos hcmp]
        exact ⟨.blue, rfl⟩
      · rw [if_neg hcmp]
        exact ⟨.pack, rfl⟩

/-- Witness for the amended C4 at N = 1. -/
theorem c4_witness :
    1 ≤ 1 ∧
    (dispatchClaimAt pocketfft_c_choice 1 ∧
      (((1 < 50 ∨ largest_prime_factor 1 ≤ isqrt 1) →
          pocketfft_r_choice 1 = .ok .pack) ∧
        (¬ ((1 : ℕ) < 50 ∨ largest_prime_factor 1 ≤ isqrt 1) →
          (pocketfft_r_choice 1 = .ok .blue ↔
            (1.5 : ℚ) * (2 * cost_guess (good_size (2 * 1 - 1))) <
              (0.5 : ℚ) * cost_guess 1) ∧
          (pocketfft_r_choice 1 = .ok .pack ↔
            ¬ ((1.5 : ℚ) * (2 * cost_guess (good_size (2 * 1 - 1))) <
              (0.5 : ℚ) * cost_guess 1)))) ∧
      (∃ ch, pocketfft_c_choice 1 = .ok ch) ∧
      (∃ ch, pocketfft_r_choice 1 = .ok ch)) :=
  ⟨by norm_num, c4_dispatch_amended 1 (by norm_num)⟩

/-!
Complex FFTPACK butterflies (cfftp).  Buffers are total functions; every C
loop is a fold over its index list; the CH / CC / WA index macros are
expanded in place.  The hard-coded butterfly constants are the decimal
literals of the source read as exact rationals.
-/

/-- C2: for N = 4 the plan factorization is the single factor 4, and the
forward transform of (1,0),(2,0),(3,0),(4,0) with scale 1 through pass_all
yields exactly (10,0),(-2,2),(-2,0),(-2,-2), for any twiddle tables. -/
theorem c2_pass_all_n4 :
    factorizeE 4 = Except.ok [4] ∧
    ∀ tw tws : ℕ → CQ,
      pass_all false 4 [⟨4, tw, tws⟩] c2input 1 0 = ((10 : ℚ), (0 : ℚ)) ∧
      pass_all false 4 [⟨4, tw, tws⟩] c2input 1 1 = ((-2 : ℚ), (2 : ℚ)) ∧
      pass_all false 4 [⟨4, tw, tws⟩] c2input 1 2 = ((-2 : ℚ), (0 : ℚ)) ∧
      pass_all false 4 [⟨4, tw, tws⟩] c2input 1 3 = ((-2 : ℚ), (-2 : ℚ)) := by
  refine ⟨rfl, fun tw tws => ?_⟩
  refine ⟨?_, ?_, ?_, ?_⟩ <;>
    norm_num [pass_all, pass_all_loop, pass_all_finish, pass4, iterRange,
      List.range', upd, pmc, cadd, csub, cscale, rot90, rotm90, c2input]

theorem cscale_one (a : CQ) : cscale a 1 = a := by
  simp [cscale]

/-- C7: for a plan of length 1, the complex driver pass_all and the real
drivers rfftp forward and backward return the input buffer with its single
element multiplied by the scale factor, and change nothing else. -/
theorem c7_length_one_identity :
    ∀ (fcts : List CFct) (rfcts : List RFct) (c : BufC) (r : BufR)
      (bwd : Bool) (fact : ℚ),
      (pass_all bwd 1 fcts c fact 0 = cscale (c 0) fact ∧
        ∀ i, i ≠ 0 → pass_all bwd 1 fcts c fact i = c i) ∧
      (rfftp_forward 1 rfcts r fact 0 = r 0 * fact ∧
        ∀ i, i ≠ 0 → rfftp_forward 1 rfcts r fact i = r i) ∧
      (rfftp_backward 1 rfcts r fact 0 = r 0 * fact ∧
        ∀ i, i ≠ 0 → rfftp_backward 1 rfcts r fact i = r i) := by
  intro fcts rfcts c r bwd fact
  refine ⟨⟨?_, ?_⟩, ⟨?_, ?_⟩, ⟨?_, ?_⟩⟩
  · simp [pass_all, upd]
  · intro i hi; simp [pass_all, upd, hi]
  · simp [rfftp_forward, upd]
  · intro i hi; simp [rfftp_forward, upd, hi]
  · simp [rfftp_backward, upd]
  · intro i hi; simp [rfftp_backward, upd, hi]

/-- Concrete instance of the length-1 identity at index 3 of a complex
buffer. -/
theorem c7_witness :
    (3 : ℕ) ≠ 0 ∧
      pass_all false 1 [] (fun _ => ((2 : ℚ), (5 : ℚ))) 7 3 = ((2 : ℚ), (5 : ℚ)) :=
  ⟨by decide,
    (c7_length_one_identity [] [] (fun _ => ((2 : ℚ), (5 : ℚ)))
      (fun _ => 0) false 7).1.2 3 (by decide)⟩

theorem copy_and_norm_scale (flag : Bool) (cbuf p1 : BufR) (n : ℕ) (s : ℚ)
    (i : ℕ) (hi : i < n) :
    copy_and_norm flag cbuf p1 n s i = s * copy_and_norm flag cbuf p1 n 1 i := by
  unfold copy_and_norm
  by_cases hs : s = 1
  · subst hs; cases flag <;> simp [hi]
  · cases flag <;> simp [hs, hi, mul_comm]

theorem pass_all_finish_scale (len : ℕ) (p1 p2 : BufC) (flag : Bool) (s : ℚ)
    (i : ℕ) (hi : i < len) :
    pass_all_finish len p1 p2 flag s i =
      cscale (pass_all_finish len p1 p2 flag 1 i) s := by
  unfold pass_all_finish
  by_cases hs : s = 1
  · subst hs; cases flag <;> simp [hi, cscale]
  · cases flag <;> simp [hs, hi, cscale]

/-- C8: the scale factor is applied exactly once, as a final elementwise
multiplication: for every index inside the buffer, transforming with scale
s equals s times transforming with scale 1, for the complex driver
pass_all and the real drivers rfftp forward and backward. -/
theorem c8_scale_linearity (len i : ℕ) (hi : i < len) :
    (∀ (bwd : Bool) (fcts : List CFct) (c : BufC) (s : ℚ),
      pass_all bwd len fcts c s i = cscale (pass_all bwd len fcts c 1 i) s) ∧
    (∀ (fcts : List RFct) (c : BufR) (s : ℚ),
      rfftp_forward len fcts c s i = s * rfftp_forward len fcts c 1 i) ∧
    (∀ (fcts : List RFct) (c : BufR) (s : ℚ),
      rfftp_backward len fcts c s i = s * rfftp_backward len fcts c 1 i) := by
  refine ⟨?_, ?_, ?_⟩
  · intro bwd fcts c s
    by_cases hlen : len = 1
    · subst hlen
      have hi0 : i = 0 := by omega
      subst hi0
      simp [pass_all, upd, cscale]
    · simp only [pass_all, if_neg hlen]
      exact pass_all_finish_scale len _ _ _ s i hi
  · intro fcts c s
    by_cases hlen : len = 1
    · subst hlen
      have hi0 : i = 0 := by omega
      subst hi0
      simp [rfftp_forward, upd, mul_comm]
    · simp only [rfftp_forward, if_neg hlen]
      exact copy_and_norm_scale _ _ _ len s i hi
  · intro fcts c s
    by_cases hlen : len = 1
    · subst hlen
      have hi0 : i = 0 := by omega
      subst hi0
      simp [rfftp_backward, upd, mul_comm]
    · simp only [rfftp_backward, if_neg hlen]
      exact copy_and_norm_scale _ _ _ len s i hi

/-- Concrete instance of scale linearity at length 1, index 0. -/
theorem c8_witness :
    (0 : ℕ) < 1 ∧
      pass_all false 1 [] (fun _ => ((2 : ℚ), (3 : ℚ))) 5 0 =
        cscale (pass_all false 1 [] (fun _ => ((2 : ℚ), (3 : ℚ))) 1 0) 5 :=
  ⟨by decide,
    (c8_scale_linearity 1 0 (by decide)).1 false []
      (fun _ => ((2 : ℚ), (3 : ℚ))) 5⟩

theorem flatMap_perm_congr {α β : Type} (xs : List α) (f g : α → List β)
    (h : ∀ a ∈ xs, (f a).Perm (g a)) : (xs.flatMap f).Perm (xs.flatMap g) := by
  induction xs with
  | nil => simp
  | cons a t ih =>
    simp only [List.flatMap_cons]
    exact (h a (List.mem_cons_self a t)).append
      (ih fun b hb => h b (List.mem_cons_of_mem a hb))

theorem flatMap_append_perm {α β : Type} (xs : List α) (f g : α → List β) :
    (xs.flatMap fun a => f a ++ g a).Perm (xs.flatMap f ++ xs.flatMap g) := by
  induction xs with
  | nil => simp
  | cons a t ih =>
    simp only [List.flatMap_cons]
    refine (List.Perm.append_left (f a ++ g a) ih).trans ?_
    simp only [List.append_assoc]
    exact List.Perm.append_left (f a)
      (List.perm_append_comm_assoc (g a) (t.flatMap f) (t.flatMap g))

theorem flatMap_pair_range (k : ℕ) : ∀ s : ℕ,
    ((List.range' s k 2).flatMap fun m => [m, m + 1]) =
      List.range' s (2 * k) 1 := by
  induction k with
  | zero => intro s; rfl
  | succ k ih =>
    intro s
    rw [List.range'_succ]
    simp only [List.flatMap_cons]
    rw [ih (s + 2)]
    have h2 : 2 * (k + 1) = 2 * k + 1 + 1 := by ring
    rw [h2, List.range'_succ, List.range'_succ]
    have hs : s + 1 + 1 = s + 2 := by omega
    rw [hs]
    simp only [List.cons_append, List.nil_append]

theorem flatMap_pair_range_rev (k : ℕ) : ∀ s c : ℕ, s + 2 * k ≤ c + 2 →
    ((List.range' s k 2).flatMap fun m => [c - m, c - m + 1]).Perm
      (List.range' (c + 2 - s - 2 * k) (2 * k) 1) := by
  induction k with
  | zero => intro s c h; simp
  | succ k ih =>
    intro s c h
    rw [List.range'_succ]
    simp only [List.flatMap_cons]
    have hrest := ih (s + 2) c (by omega)
    have hstart : c + 2 - (s + 2) - 2 * k = c - s - 2 * k := by omega
    rw [hstart] at hrest
    have hstart2 : c + 2 - s - 2 * (k + 1) = c - s - 2 * k := by omega
    rw [hstart2]
    refine (List.Perm.append_left _ hrest).trans ?_
    refine List.perm_append_comm.trans ?_
    have happ := List.range'_append (c - s - 2 * k) (2 * k) 2 1
    have hmid : c - s - 2 * k + 1 * (2 * k) = c - s := by omega
    rw [hmid] at happ
    have htwo : List.range' (c - s) 2 1 = [c - s, c - s + 1] := rfl
    rw [htwo] at happ
    have h2k : 2 * (k + 1) = 2 + 2 * k := by ring
    rw [h2k, ← happ]

/-- C10: for every N >= 1 the bkf initialization of the fftblue
constructor writes exactly the slots 0 .. 2*M-1, M = good_size(2N-1), with
no gap, no overlap and no out-of-bounds write: the list of written indices
is a permutation of range (2*M). -/
theorem c10_bkf_full_init (n : ℕ) (hn : 1 ≤ n) :
    (bkfWrites n (good_size (2 * n - 1))).Perm
      (List.range (2 * good_size (2 * n - 1))) := by
  obtain ⟨hge, -, -⟩ := good_size_least (2 * n - 1) (by omega)
  set n2 := good_size (2 * n - 1) with hn2def
  have h1 : ((List.range' 2 (n - 1) 2).flatMap
      (fun m => [m, 2 * n2 - m, m + 1, 2 * n2 - m + 1])).Perm
      (((List.range' 2 (n - 1) 2).flatMap fun m => [m, m + 1]) ++
        ((List.range' 2 (n - 1) 2).flatMap
          fun m => [2 * n2 - m, 2 * n2 - m + 1])) := by
    refine (flatMap_perm_congr _ _
      (fun m => [m, m + 1] ++ [2 * n2 - m, 2 * n2 - m + 1]) ?_).trans
      (flatMap_append_perm (List.range' 2 (n - 1) 2)
        (fun m => [m, m + 1]) (fun m => [2 * n2 - m, 2 * n2 - m + 1]))
    intro m hm
    exact List.Perm.cons m (List.Perm.swap (m + 1) (2 * n2 - m) _)
  have h3 := flatMap_pair_range_rev (n - 1) 2 (2 * n2) (by omega)
  have hst : 2 * n2 + 2 - 2 - 2 * (n - 1) = 2 * n2 - 2 * n + 2 := by omega
  rw [hst] at h3
  have hQ : ((List.range' 2 (n - 1) 2).flatMap
      (fun m => [m, 2 * n2 - m, m + 1, 2 * n2 - m + 1])).Perm
      (List.range' 2 (2 * (n - 1)) 1 ++
        List.range' (2 * n2 - 2 * n + 2) (2 * (n - 1)) 1) := by
    refine h1.trans ?_
    rw [flatMap_pair_range]
    exact List.Perm.append_left _ h3
  unfold bkfWrites
  refine (List.Perm.append_right _ (List.Perm.append_left _ hQ)).trans ?_
  have hassoc : ([0, 1] ++ (List.range' 2 (2 * (n - 1)) 1 ++
      List.range' (2 * n2 - 2 * n + 2) (2 * (n - 1)) 1)) ++
      List.range' (2 * n) (2 * n2 - 2 * n + 1 + 1 - 2 * n) 1
      = ([0, 1] ++ List.range' 2 (2 * (n - 1)) 1) ++
        (List.range' (2 * n2 - 2 * n + 2) (2 * (n - 1)) 1 ++
          List.range' (2 * n) (2 * n2 - 2 * n + 1 + 1 - 2 * n) 1) := by
    simp [List.append_assoc]
  rw [hassoc]
  refine (List.Perm.append_left _ List.perm_append_comm).trans ?_
  have e1 : [0, 1] ++ List.range' 2 (2 * (n - 1)) 1 =
      List.range' 0 (2 * n) 1 := by
    have happ := List.range'_append 0 2 (2 * (n - 1)) 1
    have hz : (0 : ℕ) + 1 * 2 = 2 := by norm_num
    rw [hz] at happ
    have h2n : 2 * (n - 1) + 2 = 2 * n := by omega
    rw [h2n] at happ
    exact happ
  rw [e1, ← List.append_assoc]
  have e2 : List.range' 0 (2 * n) 1 ++
      List.range' (2 * n) (2 * n2 - 2 * n + 1 + 1 - 2 * n) 1 =
      List.range' 0 (2 * n2 - 2 * n + 2) 1 := by
    have happ := List.range'_append 0 (2 * n) (2 * n2 - 2 * n + 1 + 1 - 2 * n) 1
    have hs : (0 : ℕ) + 1 * (2 * n) = 2 * n := by ring
    rw [hs] at happ
    have hsum : 2 * n2 - 2 * n + 1 + 1 - 2 * n + 2 * n = 2 * n2 - 2 * n + 2 := by
      omega
    rw [hsum] at happ
    exact happ
  rw [e2]
  have e3 : List.range' 0 (2 * n2 - 2 * n + 2) 1 ++
      List.range' (2 * n2 - 2 * n + 2) (2 * (n - 1)) 1 =
      List.range' 0 (2 * n2) 1 := by
    have happ := List.range'_append 0 (2 * n2 - 2 * n + 2) (2 * (n - 1)) 1
    have hs : (0 : ℕ) + 1 * (2 * n2 - 2 * n + 2) = 2 * n2 - 2 * n + 2 := by ring
    rw [hs] at happ
    have hsum : 2 * (n - 1) + (2 * n2 - 2 * n + 2) = 2 * n2 := by omega
    rw [hsum] at happ
    exact happ
  rw [e3, List.range_eq_range']

/-- Concrete instance of the bkf coverage at N = 7 (where the zero-padding
segment is nonempty). -/
theorem c10_witness :
    (1 : ℕ) ≤ 7 ∧
      (bkfWrites 7 (good_size (2 * 7 - 1))).Perm
        (List.range (2 * good_size (2 * 7 - 1))) :=
  ⟨by decide, c10_bkf_full_init 7 (by decide)⟩

theorem wrapGt_wrapGe_step (ip x l : ℕ) (hx : x < ip) (hl : l ≤ ip)
    (hnd : (x + l) % ip ≠ 0) :
    wrapGt ip (x + l) = (x + l) % ip ∧ wrapGe ip (x + l) = (x + l) % ip := by
  unfold wrapGt wrapGe
  by_cases hle : ip ≤ x + l
  · have hne : x + l ≠ ip := by
      intro he
      rw [he, Nat.mod_self] at hnd
      exact hnd rfl
    have hlt : ip < x + l := by omega
    rw [if_pos hlt, if_pos hle, Nat.mod_eq_sub_mod hle,
      Nat.mod_eq_of_lt (by omega : x + l - ip < ip)]
    exact ⟨rfl, rfl⟩
  · rw [if_neg (by omega : ¬ ip < x + l), if_neg hle,
      Nat.mod_eq_of_lt (by omega : x + l < ip)]
    exact ⟨rfl, rfl⟩

theorem scan_step_arith (ip l j x : ℕ) (hp : ip.Prime) (hl1 : 1 ≤ l)
    (hl2 : l < ip) (hx : x < ip) (hinv : x % ip = ((j - 1) * l) % ip)
    (hj1 : 1 ≤ j) (hj2 : j < ip) :
    wrapGt ip (x + l) = wrapGe ip (x + l) ∧ wrapGe ip (x + l) < ip ∧
      wrapGe ip (x + l) % ip = (j * l) % ip := by
  have hxl : (x + l) % ip = (j * l) % ip := by
    conv_lhs => rw [← Nat.mod_add_mod, hinv, Nat.mod_add_mod]
    congr 1
    have hjj : j - 1 + 1 = j := by omega
    calc (j - 1) * l + l = (j - 1 + 1) * l := by ring
      _ = j * l := by rw [hjj]
  have hnd : (x + l) % ip ≠ 0 := by
    rw [hxl]
    intro h0
    have hdvd : ip ∣ j * l := Nat.dvd_iff_mod_eq_zero.2 h0
    rcases hp.dvd_mul.1 hdvd with hd | hd
    · have := Nat.le_of_dvd (by omega) hd
      omega
    · have := Nat.le_of_dvd (by omega) hd
      omega
  obtain ⟨e1, e2⟩ := wrapGt_wrapGe_step ip x l hx (le_of_lt hl2) hnd
  refine ⟨e1.trans e2.symm, ?_, ?_⟩
  · rw [e2]
    exact Nat.mod_lt _ hp.pos
  · rw [e2, Nat.mod_eq_of_lt (Nat.mod_lt _ hp.pos)]
    exact hxl

theorem passg_scan_single_gt_ge (ip l ipph : ℕ) (hp : ip.Prime)
    (hl1 : 1 ≤ l) (hl2 : l < ip) (hipph : ipph ≤ ip) (wal : ℕ → CQ)
    (idl1 lc : ℕ) (ch : BufC) :
    ∀ (fuel j jc iwal : ℕ) (cc : BufC), iwal < ip →
      iwal % ip = ((j - 1) * l) % ip → 1 ≤ j →
      passg_scan_single (wrapGt ip) wal idl1 l lc ipph ch fuel j jc iwal cc =
        passg_scan_single (wrapGe ip) wal idl1 l lc ipph ch fuel j jc iwal cc := by
  intro fuel
  induction fuel with
  | zero => intro j jc iwal cc _ _ _; rfl
  | succ fuel ih =>
    intro j jc iwal cc hx hinv hj
    by_cases hjlt : j < ipph
    · obtain ⟨heq, hlt2, hinv2⟩ :=
        scan_step_arith ip l j iwal hp hl1 hl2 hx hinv hj (by omega)
      simp only [passg_scan_single]
      rw [if_pos hjlt, if_pos hjlt, heq]
      exact ih (j + 1) (jc - 1) (wrapGe ip (iwal + l)) _ hlt2 hinv2 (by omega)
    · simp only [passg_scan_single]
      rw [if_neg hjlt, if_neg hjlt]

theorem passg_scan_pair_gt_ge (ip l ipph : ℕ) (hp : ip.Prime)
    (hl1 : 1 ≤ l) (hl2 : l < ip) (hipph : ipph ≤ ip) (wal : ℕ → CQ)
    (idl1 lc : ℕ) (ch : BufC) :
    ∀ (fuel j jc iwal : ℕ) (cc : BufC), iwal < ip →
      iwal % ip = ((j - 1) * l) % ip → 1 ≤ j →
      passg_scan_pair (wrapGt ip) wal idl1 l lc ipph ch fuel j jc iwal cc =
        passg_scan_pair (wrapGe ip) wal idl1 l lc ipph ch fuel j jc iwal cc := by
  intro fuel
  induction fuel with
  | zero => intro j jc iwal cc _ _ _; rfl
  | succ fuel ih =>
    intro j jc iwal cc hx hinv hj
    by_cases hjlt : j < ipph - 1
    · obtain ⟨heq1, hlt1, hinv1⟩ :=
        scan_step_arith ip l j iwal hp hl1 hl2 hx hinv hj (by omega)
      obtain ⟨heq2, hlt2, hinv2⟩ :=
        scan_step_arith ip l (j + 1) (wrapGe ip (iwal + l)) hp hl1 hl2
          hlt1 hinv1 (by omega) (by omega)
      simp only [passg_scan_pair]
      rw [if_pos hjlt, if_pos hjlt, heq1, heq2]
      exact ih (j + 2) (jc - 2) _ _ hlt2 hinv2 (by omega)
    · simp only [passg_scan_pair]
      rw [if_neg hjlt, if_neg hjlt]
      exact passg_scan_single_gt_ge ip l ipph hp hl1 hl2 hipph wal idl1 lc ch
        (fuel + 1) j jc iwal cc hx hinv hj

theorem foldl_congr_mem {σ : Type} : ∀ (L : List ℕ) (f g : ℕ → σ → σ) (x : σ),
    (∀ i ∈ L, ∀ a, f i a = g i a) →
    L.foldl (fun a i => f i a) x = L.foldl (fun a i => g i a) x := by
  intro L
  induction L with
  | nil => intro f g x _; rfl
  | cons b t ih =>
    intro f g x h
    simp only [List.foldl_cons]
    rw [h b (List.mem_cons_self b t)]
    exact ih f g _ (fun i hi a => h i (List.mem_cons_of_mem b hi) a)

theorem iterRange_congr {σ : Type} (s len step : ℕ) (f g : ℕ → σ → σ) (x : σ)
    (h : ∀ i ∈ List.range' s len step, ∀ a, f i a = g i a) :
    iterRange s len step f x = iterRange s len step g x :=
  foldl_congr_mem _ f g x h

theorem passg_phase3_gt_ge (ip : ℕ) (hp : ip.Prime) (h2 : 2 < ip)
    (wal : ℕ → CQ) (idl1 : ℕ) (ch : BufC) (cc : BufC) :
    passg_phase3 (wrapGt ip) wal ip ((ip + 1) / 2) idl1 ch cc =
      passg_phase3 (wrapGe ip) wal ip ((ip + 1) / 2) idl1 ch cc := by
  unfold passg_phase3
  apply iterRange_congr
  intro l hl a
  rw [List.mem_range'_1] at hl
  have hl1 : 1 ≤ l := hl.1
  have hlips : l < (ip + 1) / 2 := by omega
  have hodd : ip % 2 = 1 := Nat.odd_iff.1 (hp.odd_of_ne_two (by omega))
  have h2l : 2 * l < ip := by omega
  exact passg_scan_pair_gt_ge ip l ((ip + 1) / 2) hp hl1 (by omega)
    (by omega) wal idl1 (ip - l) ch ((ip + 1) / 2) 3 (ip - 3) (2 * l) _
    h2l rfl (by omega)

theorem passg_eq_ge (ip : ℕ) (hp : ip.Prime) (h2 : 2 < ip) (bwd : Bool)
    (ido l1 : ℕ) (cc ch : BufC) (wa csarr : ℕ → CQ) :
    passg bwd ido ip l1 cc ch wa csarr = passg_ge bwd ido ip l1 cc ch wa csarr := by
  simp only [passg, passg_ge, passg_core]
  rw [passg_phase3_gt_ge ip hp h2]

theorem radg_scan_single_gt_ge (ip l ipph : ℕ) (hp : ip.Prime)
    (hl1 : 1 ≤ l) (hl2 : l < ip) (hipph : ipph ≤ ip) (csarr : ℕ → ℚ)
    (idl1 lc : ℕ) (src : BufR) :
    ∀ (fuel j jc iang : ℕ) (dst : BufR), iang < ip →
      iang % ip = ((j - 1) * l) % ip → 1 ≤ j →
      radg_scan_single (wrapGt ip) csarr idl1 l lc ipph src fuel j jc iang dst =
        radg_scan_single (wrapGe ip) csarr idl1 l lc ipph src fuel j jc iang dst := by
  intro fuel
  induction fuel with
  | zero => intro j jc iang dst _ _ _; rfl
  | succ fuel ih =>
    intro j jc iang dst hx hinv hj
    by_cases hjlt : j < ipph
    · obtain ⟨heq, hlt2, hinv2⟩ :=
        scan_step_arith ip l j iang hp hl1 hl2 hx hinv hj (by omega)
      simp only [radg_scan_single]
      rw [if_pos hjlt, if_pos hjlt, heq]
      exact ih (j + 1) (jc - 1) (wrapGe ip (iang + l)) _ hlt2 hinv2 (by omega)
    · simp only [radg_scan_single]
      rw [if_neg hjlt, if_neg hjlt]

theorem radg_scan_pair_gt_ge (ip l ipph : ℕ) (hp : ip.Prime)
    (hl1 : 1 ≤ l) (hl2 : l < ip) (hipph : ipph ≤ ip) (csarr : ℕ → ℚ)
    (idl1 lc : ℕ) (src : BufR) :
    ∀ (fuel j jc iang : ℕ) (dst : BufR), iang < ip →
      iang % ip = ((j - 1) * l) % ip → 1 ≤ j →
      radg_scan_pair (wrapGt ip) csarr idl1 l lc ipph src fuel j jc iang dst =
        radg_scan_pair (wrapGe ip) csarr idl1 l lc ipph src fuel j jc iang dst := by
  intro fuel
  induction fuel with
  | zero => intro j jc iang dst _ _ _; rfl
  | succ fuel ih =>
    intro j jc iang dst hx hinv hj
    by_cases hjlt : j < ipph - 1
    · obtain ⟨heq1, hlt1, hinv1⟩ :=
        scan_step_arith ip l j iang hp hl1 hl2 hx hinv hj (by omega)
      obtain ⟨heq2, hlt2, hinv2⟩ :=
        scan_step_arith ip l (j + 1) (wrapGe ip (iang + l)) hp hl1 hl2
          hlt1 hinv1 (by omega) (by omega)
      simp only [radg_scan_pair]
      rw [if_pos hjlt, if_pos hjlt, heq1, heq2]
      exact ih (j + 2) (jc - 2) _ _ hlt2 hinv2 (by omega)
    · simp only [radg_scan_pair]
      rw [if_neg hjlt, if_neg hjlt]
      exact radg_scan_single_gt_ge ip l ipph hp hl1 hl2 hipph csarr idl1 lc src
        (fuel + 1) j jc iang dst hx hinv hj

theorem radg_scan_quad_gt_ge (ip l ipph : ℕ) (hp : ip.Prime)
    (hl1 : 1 ≤ l) (hl2 : l < ip) (hipph : ipph ≤ ip) (csarr : ℕ → ℚ)
    (idl1 lc : ℕ) (src : BufR) :
    ∀ (fuel j jc iang : ℕ) (dst : BufR), iang < ip →
      iang % ip = ((j - 1) * l) % ip → 1 ≤ j →
      radg_scan_quad (wrapGt ip) csarr idl1 l lc ipph src fuel j jc iang dst =
        radg_scan_quad (wrapGe ip) csarr idl1 l lc ipph src fuel j jc iang dst := by
  intro fuel
  induction fuel with
  | zero => intro j jc iang dst _ _ _; rfl
  | succ fuel ih =>
    intro j jc iang dst hx hinv hj
    by_cases hjlt : j < ipph - 3
    · obtain ⟨heq1, hlt1, hinv1⟩ :=
        scan_step_arith ip l j iang hp hl1 hl2 hx hinv hj (by omega)
      obtain ⟨heq2, hlt2, hinv2⟩ :=
        scan_step_arith ip l (j + 1) (wrapGe ip (iang + l)) hp hl1 hl2
          hlt1 hinv1 (by omega) (by omega)
      obtain ⟨heq3, hlt3, hinv3⟩ :=
        scan_step_arith ip l (j + 2) (wrapGe ip (wrapGe ip (iang + l) + l))
          hp hl1 hl2 hlt2 hinv2 (by omega) (by omega)
      obtain ⟨heq4, hlt4, hinv4⟩ :=
        scan_step_arith ip l (j + 3)
          (wrapGe ip (wrapGe ip (wrapGe ip (iang + l) + l) + l)) hp hl1 hl2
          hlt3 hinv3 (by omega) (by omega)
      simp only [radg_scan_quad]
      rw [if_pos hjlt, if_pos hjlt, heq1, heq2, heq3, heq4]
      exact ih (j + 4) (jc - 4) _ _ hlt4 hinv4 (by omega)
    · simp only [radg_scan_quad]
      rw [if_neg hjlt, if_neg hjlt]
      exact radg_scan_pair_gt_ge ip l ipph hp hl1 hl2 hipph csarr idl1 lc src
        (fuel + 1) j jc iang dst hx hinv hj

theorem radg_phase_gt_ge (ip : ℕ) (hp : ip.Prime) (h2 : 2 < ip)
    (csarr : ℕ → ℚ) (idl1 : ℕ) (src dst : BufR) :
    radg_phase (wrapGt ip) csarr ip ((ip + 1) / 2) idl1 src dst =
      radg_phase (wrapGe ip) csarr ip ((ip + 1) / 2) idl1 src dst := by
  unfold radg_phase
  apply iterRange_congr
  intro l hl a
  rw [List.mem_range'_1] at hl
  have hl1 : 1 ≤ l := hl.1
  have hlips : l < (ip + 1) / 2 := by omega
  have hodd : ip % 2 = 1 := Nat.odd_iff.1 (hp.odd_of_ne_two (by omega))
  have h2l : 2 * l < ip := by omega
  exact radg_scan_quad_gt_ge ip l ((ip + 1) / 2) hp hl1 (by omega)
    (by omega) csarr idl1 (ip - l) src ((ip + 1) / 2) 3 (ip - 3) (2 * l) _
    h2l rfl (by omega)

theorem radbg_eq_ge (ip : ℕ) (hp : ip.Prime) (h2 : 2 < ip) (ido l1 : ℕ)
    (cc ch : BufR) (wa csarr : ℕ → ℚ) :
    radbg ido ip l1 cc ch wa csarr = radbg_ge ido ip l1 cc ch wa csarr := by
  simp only [radbg, radbg_ge, radbg_core]
  rw [radg_phase_gt_ge ip hp h2]

theorem scanTraceSingle_bound (ip l ipph : ℕ) (hp : ip.Prime)
    (hl1 : 1 ≤ l) (hl2 : l < ip) (hipph : ipph ≤ ip) :
    ∀ (fuel j iwal : ℕ), iwal < ip → iwal % ip = ((j - 1) * l) % ip → 1 ≤ j →
      ∀ v ∈ scanTraceSingle (wrapGt ip) l ipph fuel j iwal, v < ip := by
  intro fuel
  induction fuel with
  | zero => intro j iwal _ _ _ v hv; simp [scanTraceSingle] at hv
  | succ fuel ih =>
    intro j iwal hx hinv hj v hv
    by_cases hjlt : j < ipph
    · obtain ⟨heq, hlt2, hinv2⟩ :=
        scan_step_arith ip l j iwal hp hl1 hl2 hx hinv hj (by omega)
      simp only [scanTraceSingle] at hv
      rw [if_pos hjlt, heq] at hv
      rcases List.mem_cons.1 hv with h | h
      · rw [h]; exact hlt2
      · exact ih (j + 1) (wrapGe ip (iwal + l)) hlt2 hinv2 (by omega) v h
    · simp only [scanTraceSingle] at hv
      rw [if_neg hjlt] at hv
      simp at hv

theorem scanTracePair_bound (ip l ipph : ℕ) (hp : ip.Prime)
    (hl1 : 1 ≤ l) (hl2 : l < ip) (hipph : ipph ≤ ip) :
    ∀ (fuel j iwal : ℕ), iwal < ip → iwal % ip = ((j - 1) * l) % ip → 1 ≤ j →
      ∀ v ∈ scanTracePair (wrapGt ip) l ipph fuel j iwal, v < ip := by
  intro fuel
  induction fuel with
  | zero => intro j iwal _ _ _ v hv; simp [scanTracePair] at hv
  | succ fuel ih =>
    intro j iwal hx hinv hj v hv
    by_cases hjlt : j < ipph - 1
    · obtain ⟨heq1, hlt1, hinv1⟩ :=
        scan_step_arith ip l j iwal hp hl1 hl2 hx hinv hj (by omega)
      obtain ⟨heq2, hlt2, hinv2⟩ :=
        scan_step_arith ip l (j + 1) (wrapGe ip (iwal + l)) hp hl1 hl2
          hlt1 hinv1 (by omega) (by omega)
      simp only [scanTracePair] at hv
      rw [if_pos hjlt, heq1, heq2] at hv
      rcases List.mem_cons.1 hv with h | h
      · rw [h]; exact hlt1
      rcases List.mem_cons.1 h with h2 | h2
      · rw [h2]; exact hlt2
      · exact ih (j + 2) _ hlt2 hinv2 (by omega) v h2
    · simp only [scanTracePair] at hv
      rw [if_neg hjlt] at hv
      exact scanTraceSingle_bound ip l ipph hp hl1 hl2 hipph (fuel + 1) j iwal
        hx hinv hj v hv

theorem scanTraceQuad_bound (ip l ipph : ℕ) (hp : ip.Prime)
    (hl1 : 1 ≤ l) (hl2 : l < ip) (hipph : ipph ≤ ip) :
    ∀ (fuel j iang : ℕ), iang < ip → iang % ip = ((j - 1) * l) % ip → 1 ≤ j →
      ∀ v ∈ scanTraceQuad (wrapGt ip) l ipph fuel j iang, v < ip := by
  intro fuel
  induction fuel with
  | zero => intro j iang _ _ _ v hv; simp [scanTraceQuad] at hv
  | succ fuel ih =>
    intro j iang hx hinv hj v hv
    by_cases hjlt : j < ipph - 3
    · obtain ⟨heq1, hlt1, hinv1⟩ :=
        scan_step_arith ip l j iang hp hl1 hl2 hx hinv hj (by omega)
      obtain ⟨heq2, hlt2, hinv2⟩ :=
        scan_step_arith ip l (j + 1) (wrapGe ip (iang + l)) hp hl1 hl2
          hlt1 hinv1 (by omega) (by omega)
      obtain ⟨heq3, hlt3, hinv3⟩ :=
        scan_step_arith ip l (j + 2) (wrapGe ip (wrapGe ip (iang + l) + l))
          hp hl1 hl2 hlt2 hinv2 (by omega) (by omega)
      obtain ⟨heq4, hlt4, hinv4⟩ :=
        scan_step_arith ip l (j + 3)
          (wrapGe ip (wrapGe ip (wrapGe ip (iang + l) + l) + l)) hp hl1 hl2
          hlt3 hinv3 (by omega) (by omega)
      simp only [scanTraceQuad] at hv
      rw [if_pos hjlt, heq1, heq2, heq3, heq4] at hv
      rcases List.mem_cons.1 hv with h | h
      · rw [h]; exact hlt1
      rcases List.mem_cons.1 h with h2 | h2
      · rw [h2]; exact hlt2
      rcases List.mem_cons.1 h2 with h3 | h3
      · rw [h3]; exact hlt3
      rcases List.mem_cons.1 h3 with h4 | h4
      · rw [h4]; exact hlt4
      · exact ih (j + 4) _ hlt4 hinv4 (by omega) v h4
    · simp only [scanTraceQuad] at hv
      rw [if_neg hjlt] at hv
      exact scanTracePair_bound ip l ipph hp hl1 hl2 hipph (fuel + 1) j iang
        hx hinv hj v hv

/-- C9: for a prime generic radix ip the wrapped root-of-unity index of
the passg scan (ip > 11) and of the radbg scan (ip > 5) stays strictly
below ip, so every root-table access is in bounds and the index never
takes the value ip; consequently replacing the strict wrap test (>) of
passg and radbg by the inclusive one (>=, as in radfg) leaves the
transform output unchanged. -/
theorem c9_wrap_index_safe (ip : ℕ) (hp : ip.Prime) :
    (11 < ip →
      (∀ l, 1 ≤ l → l < (ip + 1) / 2 →
        ∀ v ∈ scanTracePair (wrapGt ip) l ((ip + 1) / 2) ((ip + 1) / 2) 3
          (2 * l), v < ip) ∧
      ∀ (bwd : Bool) (ido l1 : ℕ) (cc ch : BufC) (wa csarr : ℕ → CQ),
        passg bwd ido ip l1 cc ch wa csarr =
          passg_ge bwd ido ip l1 cc ch wa csarr) ∧
    (5 < ip →
      (∀ l, 1 ≤ l → l < (ip + 1) / 2 →
        ∀ v ∈ scanTraceQuad (wrapGt ip) l ((ip + 1) / 2) ((ip + 1) / 2) 3
          (2 * l), v < ip) ∧
      ∀ (ido l1 : ℕ) (cc ch : BufR) (wa csarr : ℕ → ℚ),
        radbg ido ip l1 cc ch wa csarr = radbg_ge ido ip l1 cc ch wa csarr) := by
  constructor
  · intro hip
    have hodd : ip % 2 = 1 := Nat.odd_iff.1 (hp.odd_of_ne_two (by omega))
    constructor
    · intro l hl1 hlips v hv
      exact scanTracePair_bound ip l ((ip + 1) / 2) hp hl1 (by omega)
        (by omega) ((ip + 1) / 2) 3 (2 * l) (by omega) rfl (by omega) v hv
    · intro bwd ido l1 cc ch wa csarr
      exact passg_eq_ge ip hp (by omega) bwd ido l1 cc ch wa csarr
  · intro hip
    have hodd : ip % 2 = 1 := Nat.odd_iff.1 (hp.odd_of_ne_two (by omega))
    constructor
    · intro l hl1 hlips v hv
      exact scanTraceQuad_bound ip l ((ip + 1) / 2) hp hl1 (by omega)
        (by omega) ((ip + 1) / 2) 3 (2 * l) (by omega) rfl (by omega) v hv
    · intro ido l1 cc ch wa csarr
      exact radbg_eq_ge ip hp (by omega) ido l1 cc ch wa csarr

/-- Concrete instance of the wrap safety at the prime radix 13. -/
theorem c9_witness :
    Nat.Prime 13 ∧
      ∀ (ido l1 : ℕ) (cc ch : BufR) (wa csarr : ℕ → ℚ),
        radbg ido 13 l1 cc ch wa csarr = radbg_ge ido 13 l1 cc ch wa csarr :=
  ⟨by norm_num, ((c9_wrap_index_safe 13 (by norm_num)).2 (by norm_num)).2⟩
